import Mathlib

/-!
# Verification of the solid-events event-composition core

This development shallowly embeds the event core of the repository
(`src/unnamed/part_002`, second module, lines 211-551): the handler graph
built by `makeHandler`/`createEvent`, the three-queue scheduler
(`pureQueue`, `mutationListenerQueue`, `listenerQueue` with their running
flags and `flushQueues`), halt semantics (`HaltError`/`handleError`),
`createPartition`, `createListener`/`createMutationListener`, scope
teardown (`onCleanup` unsubscription), the promise chain of `makeHandler`,
and the topic tree (`createTopic`'s `on`/`emit`).

The multicast stream is modelled after the contract in spec section 6
(synchronous delivery to current subscribers in subscription order; pushes
to unsubscribed subscribers are dropped), since the stream library itself
is an external collaborator of the core, not part of this repository.

JavaScript side effects are made explicit:
* the graph of subscriptions is a list of `Edge`s; each edge remembers the
  stream it subscribes to (`src`), the downstream `next$` stream it feeds
  (`target`), and what its callback does (`EdgeKind`);
* the scheduler state `St` carries the three queues, the three running
  flags, an observable event `trace` (callback invocations, effect runs,
  info logs) and a pending fault (a propagating thrown error, or the
  embedding's fuel-exhaustion marker);
* the interpreter `run` is fuel-indexed; theorems about unbounded
  executions are conditioned on the run finishing without a fault
  (`okSt`).
-/

set_option maxHeartbeats 1000000
set_option maxRecDepth 100000

namespace SolidEvents

/-- JavaScript values that flow through the event graph: numbers, strings,
objects (ordered own-key/value lists), arrays, `null` and `undefined`. -/
inductive Val where
  | num (n : Int)
  | str (s : String)
  | obj (fields : List (String × Val))
  | arr (elems : List Val)
  | null
  | undefined

/-- Outcome of invoking a synchronous transform: a returned value, a thrown
`HaltError` (with the optional reason passed to `halt(reason?)`), or any
other thrown error. -/
inductive TResult where
  | ok (v : Val)
  | halted (reason : Option String)
  | thrown (msg : String)

/-- The message `HaltError`'s constructor builds (lines 327-335; the typo
"propogation" is the source's). -/
def haltMsg : Option String → String
  | some r => "Event propogation halted: " ++ r
  | none => "Event propogation halted"

/-- Observable events of a run: a subscriber callback invoked with a value
(`call edge v`), a queued listener or mutation effect executed
(`eff effId v`), and the `console.info` logging done by `handleError`. -/
inductive Ev where
  | call (edge : Nat) (v : Val)
  | eff (effId : Nat) (v : Val)
  | info (msg : String)

/-- What a subscription's callback does.

* `tfm em f` is `handler(transform)` (lines 229-261): the transform body
  may call emitters reentrantly (`em v`, each an enqueue-and-flush) and
  then returns `f v`; on `ok o` the wrapper pushes `() => next$.next(o)`
  onto the pure queue, on a thrown `HaltError` `handleError` swallows and
  info-logs, and any other thrown error propagates.
* `ltn effId` is the inner transform of `createListener` (lines 355-363):
  it appends `() => effect(e)` to the listener queue, calls
  `scheduleFlush()` (a microtask deferral with no synchronous effect),
  and returns `undefined`, which the wrapper still delivers downstream.
* `mtn effId` is `createMutationListener`'s transform (lines 391-399),
  targeting the mutation queue. -/
inductive EdgeKind where
  | tfm (em : Val → List (Nat × Val)) (f : Val → TResult)
  | ltn (effId : Nat)
  | mtn (effId : Nat)

/-- One subscription in the handler graph. `active` is the rxjs
subscription state: `onCleanup(() => sub.unsubscribe())` (line 259) turns
it false when the owning scope disposes. -/
structure Edge where
  src : Nat
  target : Nat
  kind : EdgeKind
  active : Bool

/-- The handler graph plus the bodies of queued user effects: `effEmits i v`
lists the emitter calls the queued effect `i` performs when executed with
payload `v` (most effects emit nothing). -/
structure Graph where
  edges : List Edge
  effEmits : Nat → Val → List (Nat × Val)

/-- The three queues: `p` is `pureQueue` (pending `next$.next(v)`
deliveries, as stream/value pairs), `m` is `mutationListenerQueue` and `l`
is `listenerQueue` (pending `effect(v)` runs, as effect-id/value pairs). -/
structure Queues where
  p : List (Nat × Val)
  m : List (Nat × Val)
  l : List (Nat × Val)

/-- The three running flags: `runningPureQueue`,
`runningMutationListenerQueue`, `runningListenerQueue`. -/
structure Flags where
  p : Bool
  m : Bool
  l : Bool

/-- Why a run stopped early: a (non-halt) thrown error propagating out of
the emit call site, or exhaustion of the embedding's fuel. -/
inductive Fault where
  | thrownErr (msg : String)
  | fuelOut

/-- The observable outcome accumulated by a run. -/
structure Outcome where
  trace : List Ev
  fault : Option Fault

/-- Scheduler state: queues, running flags, and outcome. -/
structure St where
  qs : Queues
  fl : Flags
  out : Outcome

/-- The initial scheduler state: empty queues, no drain in progress. -/
def st0 : St := ⟨⟨[], [], []⟩, ⟨false, false, false⟩, ⟨[], none⟩⟩

/-- A state is `ok` when no fault is pending. Every interpreter step is a
no-op on a faulted state (an exception unwinds past it; an out-of-fuel run
is abandoned). -/
def okSt (s : St) : Bool := s.out.fault.isNone

/-- The operations of the scheduler, as explicit interpreter jobs:

* `flushQueues` drains pure, then mutation, then listener (lines 435-439);
* `flushPure` / `pureLoop` is the guarded shift-while-nonempty drain of
  the pure queue (lines 417-422);
* `flushMut` / `runMutTasks` is the guarded snapshot-iterate-then-clear
  drain of the mutation queue (lines 405-411);
* `flushLst` / `runLstTasks` likewise for the listener queue
  (lines 383-389, the clearing variant);
* `runEffect` executes one queued user effect (recording an `eff` trace
  event and performing the emitter calls in its body);
* `emitOne` is an `Emitter` call: push `() => $.next(e)` onto the pure
  queue, then `flushQueues()` (line 271);
* `doEmits` performs a list of emitter calls in order;
* `deliver`/`runEdges`/`runEdge` is `$.next(v)`: invoke each active
  subscriber of the stream in subscription order (spec section 6's
  multicast contract). -/
inductive Job where
  | flushQueues
  | flushPure
  | pureLoop
  | flushMut
  | flushLst
  | runMutTasks (ts : List (Nat × Val))
  | runLstTasks (ts : List (Nat × Val))
  | runEffect (effId : Nat) (v : Val)
  | doEmits (ems : List (Nat × Val))
  | emitOne (stream : Nat) (v : Val)
  | deliver (stream : Nat) (v : Val)
  | runEdges (idxs : List Nat) (v : Val)
  | runEdge (i : Nat) (v : Val)

/-- The indices of the active subscriptions of stream `st`, in
subscription order. -/
def subsIdx (g : Graph) (st : Nat) : List Nat :=
  (List.range g.edges.length).filter fun i =>
    match g.edges[i]? with
    | some e => e.active && e.src == st
    | none => false

/-- The fuel-indexed interpreter of the scheduler and handler graph. -/
def run (g : Graph) : Nat → St → Job → St
  | fuel, s, j =>
    if okSt s then
      match fuel with
      | 0 => { s with out := { s.out with fault := some .fuelOut } }
      | fuel + 1 =>
        match j with
        | .flushQueues =>
            run g fuel (run g fuel (run g fuel s .flushPure) .flushMut) .flushLst
        | .flushPure =>
            if s.fl.p then s
            else
              let s2 := run g fuel { s with fl := { s.fl with p := true } } .pureLoop
              if okSt s2 then { s2 with fl := { s2.fl with p := false } } else s2
        | .pureLoop =>
            match s.qs.p with
            | [] => s
            | t :: rest =>
                let s2 := run g fuel { s with qs := { s.qs with p := rest } } (.deliver t.1 t.2)
                run g fuel s2 .pureLoop
        | .flushMut =>
            if s.fl.m then s
            else
              let s2 := run g fuel { s with fl := { s.fl with m := true } } (.runMutTasks s.qs.m)
              if okSt s2 then { s2 with qs := { s2.qs with m := [] }, fl := { s2.fl with m := false } }
              else s2
        | .flushLst =>
            if s.fl.l then s
            else
              let s2 := run g fuel { s with fl := { s.fl with l := true } } (.runLstTasks s.qs.l)
              if okSt s2 then { s2 with qs := { s2.qs with l := [] }, fl := { s2.fl with l := false } }
              else s2
        | .runMutTasks ts =>
            match ts with
            | [] => s
            | t :: rest =>
                run g fuel (run g fuel s (.runEffect t.1 t.2)) (.runMutTasks rest)
        | .runLstTasks ts =>
            match ts with
            | [] => s
            | t :: rest =>
                run g fuel (run g fuel s (.runEffect t.1 t.2)) (.runLstTasks rest)
        | .runEffect i v =>
            run g fuel { s with out := { s.out with trace := s.out.trace ++ [.eff i v] } }
              (.doEmits (g.effEmits i v))
        | .doEmits ems =>
            match ems with
            | [] => s
            | e :: rest =>
                run g fuel (run g fuel s (.emitOne e.1 e.2)) (.doEmits rest)
        | .emitOne stream v =>
            run g fuel { s with qs := { s.qs with p := s.qs.p ++ [(stream, v)] } } .flushQueues
        | .deliver stream v =>
            run g fuel s (.runEdges (subsIdx g stream) v)
        | .runEdges idxs v =>
            match idxs with
            | [] => s
            | i :: rest =>
                run g fuel (run g fuel s (.runEdge i v)) (.runEdges rest v)
        | .runEdge i v =>
            match g.edges[i]? with
            | none => s
            | some e =>
                let s1 := { s with out := { s.out with trace := s.out.trace ++ [.call i v] } }
                match e.kind with
                | .ltn effId =>
                    { s1 with qs :=
                        { s1.qs with
                          l := s1.qs.l ++ [(effId, v)]
                          p := s1.qs.p ++ [(e.target, .undefined)] } }
                | .mtn effId =>
                    { s1 with qs :=
                        { s1.qs with
                          m := s1.qs.m ++ [(effId, v)]
                          p := s1.qs.p ++ [(e.target, .undefined)] } }
                | .tfm em f =>
                    let s2 := run g fuel s1 (.doEmits (em v))
                    if okSt s2 then
                      match f v with
                      | .ok o =>
                          { s2 with qs := { s2.qs with p := s2.qs.p ++ [(e.target, o)] } }
                      | .halted r =>
                          { s2 with out := { s2.out with trace := s2.out.trace ++ [.info (haltMsg r)] } }
                      | .thrown m =>
                          { s2 with out := { s2.out with fault := some (.thrownErr m) } }
                    else s2
    else s

/-- `emit(v)` on the emitter of `createEvent` whose root stream is
`stream`, starting from the idle scheduler. -/
def emitRun (g : Graph) (fuel : Nat) (stream : Nat) (v : Val) : St :=
  run g fuel st0 (.emitOne stream v)

/-- The values carried by effect (`eff`) trace events, in order: the
sequence of listener/mutation effect payloads actually executed. -/
def effValues (tr : List Ev) : List Val :=
  tr.filterMap fun e => match e with | .eff _ v => some v | _ => none

/-- Whether a trace event is a queued-effect execution. -/
def isEffEv : Ev → Bool
  | .eff _ _ => true
  | _ => false

/-- A mutation / listener queue entry, as the trace event its execution
records. -/
def effEv (t : Nat × Val) : Ev := .eff t.1 t.2

/-- A plain pure transform edge: no reentrant emitter calls in its body. -/
def tf (f : Val → TResult) : EdgeKind := .tfm (fun _ => []) f

/-! ## The ordering scenario of spec section 8, test 4

`createEvent<number>()` (root stream 0), then in registration order:
`createListener(on, push)` (effect 1), `onDouble = on(n => n*2)`,
`onDoubleDouble = onDouble(n => n*2)`, `createListener(onDoubleDouble,
push)` (effect 2), `createListener(onDouble, push)` (effect 3),
`createListener(on, push)` (effect 4). Each `handler(transform)` call
allocates a fresh `next$` stream (targets 1-6). -/

/-- `n => n * 2` on numbers. -/
def double : Val → TResult
  | .num n => .ok (.num (2 * n))
  | _ => .thrown "TypeError"

/-- The handler graph of the `on -> onDouble -> onDoubleDouble` chain with
listeners at each stage, in the registration order of the test. -/
def chainGraph : Graph :=
  { edges :=
      [ { src := 0, target := 1, kind := .ltn 1, active := true },
        { src := 0, target := 2, kind := tf double, active := true },
        { src := 2, target := 3, kind := tf double, active := true },
        { src := 3, target := 4, kind := .ltn 2, active := true },
        { src := 2, target := 5, kind := .ltn 3, active := true },
        { src := 0, target := 6, kind := .ltn 4, active := true } ],
    effEmits := fun _ _ => [] }

/-! ## Reentrant emission scenario (for claim C7)

Root stream 0 carries, in registration order: a listener (effect 1), a
transform whose body calls the emitter of a second event (root stream 4)
with payload `10` before returning its input, and a second listener
(effect 2). The second event carries a listener (effect 3) and a mutation
listener (effect 4). -/

/-- The reentrant-emit handler graph described above. -/
def reentrantGraph : Graph :=
  { edges :=
      [ { src := 0, target := 10, kind := .ltn 1, active := true },
        { src := 0, target := 11, kind := .tfm (fun _ => [(4, .num 10)]) (fun v => .ok v),
          active := true },
        { src := 0, target := 12, kind := .ltn 2, active := true },
        { src := 4, target := 13, kind := .ltn 3, active := true },
        { src := 4, target := 14, kind := .mtn 4, active := true } ],
    effEmits := fun _ _ => [] }

/-! ## The promise chain of `makeHandler` (lines 244-252)

When the upstream item is a `Promise`, the subscriber callback builds

  `e.then(_e => { if (_e instanceof HaltError) return _e; return
  transform(_e) }).catch(handleError)`

and pushes the chained promise downstream. We model a promise as a
resolution time (the microtask round at which it settles) together with
its settlement: resolved with an ordinary value, resolved with a
`HaltError` value, rejected with a `HaltError`, or rejected with any
other error. The `then` callback runs exactly at the upstream promise's
resolution time. A transform may itself return a promise
(`TransOut.later`), which `then` flattens: the chained promise settles
with the inner promise's settlement, no earlier than either. -/

/-- How a promise settles. -/
inductive PromRes where
  | val (v : Val)
  | haltVal (r : Option String)
  | rejHalt (r : Option String)
  | rejErr (m : String)

/-- A promise: its resolution time and settlement. -/
structure TProm where
  time : Nat
  res : PromRes

/-- A transform result that is either an immediate value/throw or a
promise. -/
inductive TransOut where
  | now (t : TResult)
  | later (p : TProm)

/-- The `.then(...)` part of the chain: if the upstream resolved with a
`HaltError` value, return it unchanged without invoking the transform;
if it resolved with a value, invoke the transform (a thrown `HaltError`
rejects the chain with it, any other throw rejects with that error, and
a returned promise is flattened); rejections skip the callback. The
second component records the transform invocation, if any: the time it
ran and the argument it received. -/
def thenPart (transform : Val → TransOut) (p : TProm) : TProm × Option (Nat × Val) :=
  match p.res with
  | .val v =>
      (match transform v with
       | .now (.ok o) => (⟨p.time, .val o⟩, some (p.time, v))
       | .now (.halted r) => (⟨p.time, .rejHalt r⟩, some (p.time, v))
       | .now (.thrown m) => (⟨p.time, .rejErr m⟩, some (p.time, v))
       | .later q => (⟨max p.time q.time, q.res⟩, some (p.time, v)))
  | .haltVal r => (⟨p.time, .haltVal r⟩, none)
  | .rejHalt r => (⟨p.time, .rejHalt r⟩, none)
  | .rejErr m => (⟨p.time, .rejErr m⟩, none)

/-- The `.catch(handleError)` tail (lines 337-341): a rejection with a
`HaltError` is converted into a resolution with the `HaltError` value
(after an info log); any other rejection is re-thrown, leaving the chain
rejected. -/
def catchPart (p : TProm) : TProm :=
  match p.res with
  | .rejHalt r => ⟨p.time, .haltVal r⟩
  | _ => p

/-- One async edge of the handler graph: the full
`then`-transform-`catch` chain applied to the upstream promise, returning
the downstream promise and the transform invocation record. -/
def promiseStep (transform : Val → TransOut) (p : TProm) : TProm × Option (Nat × Val) :=
  let r := thenPart transform p
  (catchPart r.1, r.2)

/-! ## The topic tree (`createTopic`, lines 495-551)

A topic node holds an optional `(handler, emitter)` pair, identified here
by the root stream id of its `createEvent`, and a mapping from string key
to child node. `on` (lines 505-523) navigates/creates the path, creates
the node's event on first use, and subscribes the transform; `emit`
(lines 525-548) recurses over object payloads by own key and fans a
primitive payload out to every prefix of the key path, wrapping it in the
suffix keys. -/

/-- A topic tree node: optional event (root stream id) and children in
insertion order. -/
inductive TTree where
  | mk (ev : Option Nat) (kids : List (String × TTree))

/-- The node's event, if created. -/
def TTree.evOf : TTree → Option Nat
  | .mk ev _ => ev

/-- The node's children. -/
def TTree.kidsOf : TTree → List (String × TTree)
  | .mk _ kids => kids

/-- Child lookup (`node[k]`): `undefined` when absent. -/
def lookupChild : List (String × TTree) → String → Option TTree
  | [], _ => none
  | (k2, c) :: rest, k => if k2 = k then some c else lookupChild rest k

/-- Replace (or append) a child binding, preserving insertion order. -/
def setChild : List (String × TTree) → String → TTree → List (String × TTree)
  | [], k, c => [(k, c)]
  | (k2, c2) :: rest, k, c =>
      if k2 = k then (k, c) :: rest else (k2, c2) :: setChild rest k c

/-- The navigate-and-create walk of `on` (lines 513-516,
`if (!node[k]) node[k] = {}`), combined with on-demand event creation
(lines 518-520): returns the updated tree, the node's event stream id,
and the next fresh stream id. -/
def ensureEvent : TTree → List String → Nat → TTree × Nat × Nat
  | .mk ev kids, [], fresh =>
      match ev with
      | some sid => (.mk (some sid) kids, sid, fresh)
      | none => (.mk (some fresh) kids, fresh, fresh + 1)
  | .mk ev kids, k :: ks, fresh =>
      let child := match lookupChild kids k with
        | some c => c
        | none => .mk none []
      let r := ensureEvent child ks fresh
      (.mk ev (setChild kids k r.1), r.2.1, r.2.2)

/-- The state of `createTopic` plus its handler graph under construction:
the tree, the next unallocated stream id, and the subscriptions made so
far. -/
structure Builder where
  tree : TTree
  nextStream : Nat
  edges : List Edge

/-- A fresh topic: empty tree, no events, no subscriptions. -/
def builder0 : Builder := ⟨.mk none [], 0, []⟩

/-- `on(...keys, transform)` (lines 505-523): navigate/create the node,
create its event on first use (allocating the root stream), and subscribe
`transform`, which allocates the derived handler's `next$` stream. -/
def topicOn (b : Builder) (path : List String) (f : Val → TResult) : Builder :=
  let r := ensureEvent b.tree path b.nextStream
  { tree := r.1,
    nextStream := r.2.2 + 1,
    edges := b.edges ++ [{ src := r.2.1, target := r.2.2, kind := tf f, active := true }] }

/-- Result of `emit`'s node navigation
(`key.slice(0, i).reduce((node, k) => node[k], topicTree)` followed by
`node[$EVENT]`, lines 545-546): a `TypeError` when an absent node is
dereferenced (either by a further `[k]` step or by the `[$EVENT]` read),
no event at the node, or the node's event. -/
inductive NavRes where
  | terr
  | noEvent
  | event (sid : Nat)

/-- The navigation itself: any absent node on the way produces a
`TypeError`, because `emit` never creates nodes. -/
def navEvent : TTree → List String → NavRes
  | t, [] =>
      match t.evOf with
      | some sid => .event sid
      | none => .noEvent
  | t, k :: ks =>
      match lookupChild t.kidsOf k with
      | some c => navEvent c ks
      | none => .terr

/-- `typeof payload === "object"`: true for objects, arrays and `null`. -/
def typeofObject : Val → Bool
  | .obj _ => true
  | .arr _ => true
  | .null => true
  | _ => false

/-- `Object.keys(payload)` paired with the values: own keys in insertion
order for objects, stringified indices for arrays; `none` models the
`TypeError` thrown for `null`. -/
def objEntries : Val → Option (List (String × Val))
  | .obj fs => some fs
  | .arr es => some (arrEntries 0 es)
  | _ => none
where
  arrEntries (i : Nat) : List Val → List (String × Val)
    | [] => []
    | v :: rest => (toString i, v) :: arrEntries (i + 1) rest

/-- Wrap the payload in the suffix keys, innermost last (lines 537-543:
`key.slice(i).toReversed().forEach(k => p = { [k]: p })`). -/
def wrapSuffix (ks : List String) (p : Val) : Val :=
  ks.foldr (fun k acc => .obj [(k, acc)]) p

/-- The fan-out loop of `emit` (lines 536-547): for each prefix length
`i` of the key path, wrap the payload in the remaining suffix, navigate
to the prefix node, and call its emitter if it has one. An absent node
throws a `TypeError`, aborting the remaining iterations. -/
def fanOut (g : Graph) (tree : TTree) :
    Nat → St → List String → Val → List Nat → St
  | _, s, _, _, [] => s
  | fuel, s, keys, payload, i :: rest =>
      if okSt s then
        let p := wrapSuffix (keys.drop i) payload
        let s2 :=
          match navEvent tree (keys.take i) with
          | .terr => { s with out := { s.out with fault := some (.thrownErr "TypeError") } }
          | .noEvent => s
          | .event sid => run g fuel s (.emitOne sid p)
        fanOut g tree fuel s2 keys payload rest
      else s

mutual

/-- `emit(...keys, payload)` (lines 525-548): an object payload is
recursed per own key (`emitKids`); a `null` payload throws the
`TypeError` of `Object.keys(null)`; any other payload fans out to every
prefix of the key path. -/
def topicEmit (g : Graph) (tree : TTree) : Nat → St → List String → Val → St
  | 0, s, _, _ =>
      if okSt s then { s with out := { s.out with fault := some .fuelOut } } else s
  | fuel + 1, s, keys, payload =>
      if okSt s then
        if typeofObject payload then
          match objEntries payload with
          | none => { s with out := { s.out with fault := some (.thrownErr "TypeError") } }
          | some kvs => emitKids g tree fuel s keys kvs
        else fanOut g tree (fuel + 1) s keys payload (List.range (keys.length + 1))
      else s

/-- `Object.keys(payload).forEach(k => emit(...keys, k, payload[k]))`
(lines 529-532); a thrown error aborts the remaining keys. -/
def emitKids (g : Graph) (tree : TTree) :
    Nat → St → List String → List (String × Val) → St
  | 0, s, _, _ =>
      if okSt s then { s with out := { s.out with fault := some .fuelOut } } else s
  | fuel + 1, s, keys, kvs =>
      match kvs with
      | [] => s
      | (k, v) :: rest => emitKids g tree fuel (topicEmit g tree fuel s (keys ++ [k]) v) keys rest

end

/-! ## The topic scenario of spec section 8, test 6

`createTopic<{a: number; b: {c: number}}>()`; subscribe `on('a', push)`,
`on('b', p => push(p.c))`, `on('b', 'c', push)`. Stream ids: node `a`'s
event is stream 0 (its subscription's `next$` is 1), node `b`'s is 2
(`next$` 3), node `b.c`'s is 4 (`next$` 5). Edges 0, 1, 2 are the three
subscriptions in order. -/

/-- `p.c` (property access; `undefined` when absent). -/
def getField (v : Val) (k : String) : Val :=
  match v with
  | .obj fs => match lookupField fs k with | some w => w | none => .undefined
  | _ => .undefined
where
  lookupField : List (String × Val) → String → Option Val
    | [], _ => none
    | (k2, w) :: rest, k => if k2 = k then some w else lookupField rest k

/-- `p => messages.push(p)`: the return value (the array length) is
delivered to a subscriber-less `next$`, so it is modelled as `undefined`;
the pushed value is read off the `call` trace event. -/
def pushTf : Val → TResult := fun _ => .ok .undefined

/-- `p => messages.push(p.c)`. -/
def pushCTf : Val → TResult := fun _ => .ok .undefined

/-- The topic of test 6 after its three subscriptions. -/
def topicB : Builder :=
  topicOn (topicOn (topicOn builder0 ["a"] pushTf) ["b"] pushCTf) ["b", "c"] pushTf

/-- The handler graph of `topicB`. -/
def topicG : Graph := { edges := topicB.edges, effEmits := fun _ _ => [] }

/-- The sequence the three `push` callbacks produce, read off the trace:
edge 0 pushes its argument, edge 1 pushes its argument's `.c`, edge 2
pushes its argument. -/
def topicMessages (tr : List Ev) : List Val :=
  tr.filterMap fun e =>
    match e with
    | .call 0 v => some v
    | .call 1 v => some (getField v "c")
    | .call 2 v => some v
    | _ => none

/-- The four emissions of test 6, in order. -/
def c4Run : St :=
  let s1 := topicEmit topicG topicB.tree 20 st0 ["a"] (.num 1)
  let s2 := topicEmit topicG topicB.tree 20 s1 ["b"] (.obj [("c", .num 2)])
  let s3 := topicEmit topicG topicB.tree 20 s2 ["b", "c"] (.num 3)
  topicEmit topicG topicB.tree 20 s3 [] (.obj [("a", .num 4), ("b", .obj [("c", .num 5)])])

/-- The topic with only `on('a', push)` subscribed. -/
def topicB1 : Builder := topicOn builder0 ["a"] pushTf

/-- Its graph. -/
def topicG1 : Graph := { edges := topicB1.edges, effEmits := fun _ _ => [] }

/-- Pure-queue emptiness is preserved (outside a pure drain). -/
def pPres (s r : St) : Prop := s.fl.p = false → s.qs.p = [] → r.qs.p = []

/-- Mutation-queue emptiness is preserved (outside pure and mutation
drains). -/
def mPres (s r : St) : Prop :=
  s.fl.p = false → s.fl.m = false → s.qs.m = [] → r.qs.m = []

/-- The per-job postcondition of the master induction. -/
def qSpec (s : St) (j : Job) (r : St) : Prop :=
  match j with
  | .flushPure => s.fl.p = false → r.qs.p = []
  | .pureLoop => r.qs.p = []
  | .flushMut => (s.fl.m = false → r.qs.m = []) ∧ pPres s r
  | .flushLst => (s.fl.l = false → r.qs.l = []) ∧ pPres s r ∧ mPres s r
  | .flushQueues =>
      (s.fl.p = false → r.qs.p = []) ∧
      (s.fl.p = false → s.fl.m = false → r.qs.m = []) ∧
      (s.fl.l = false → r.qs.l = [])
  | .emitOne _ _ =>
      (s.fl.p = false → r.qs.p = []) ∧
      (s.fl.p = false → s.fl.m = false → r.qs.m = [])
  | .doEmits _ => pPres s r ∧ mPres s r
  | .runEffect _ _ => pPres s r ∧ mPres s r
  | .runMutTasks _ => pPres s r ∧ mPres s r
  | .runLstTasks _ => pPres s r ∧ mPres s r
  | _ => True

/-- The reentrant emitter calls of an edge's callback. -/
def edgeEmits (e : Edge) : Val → List (Nat × Val) :=
  match e.kind with
  | .tfm em _ => em
  | _ => fun _ => []

/-- No transform in the graph performs reentrant emitter calls. -/
def noReentrant (g : Graph) : Prop := ∀ e ∈ g.edges, ∀ v, edgeEmits e v = []

/-- No queued effect in the graph performs emitter calls. -/
def noEffEmits (g : Graph) : Prop := ∀ i v, g.effEmits i v = []

/-- A trace segment containing no queued-effect executions. -/
def noEff (tr : List Ev) : Prop := ∀ e ∈ tr, isEffEv e = false

/-- How a pure-phase step extends the state: flags preserved, only
non-effect trace events appended, and the mutation and listener queues
only appended to. -/
def Ext (s r : St) : Prop :=
  r.fl = s.fl ∧
  ∃ tn mn ln, r.out.trace = s.out.trace ++ tn ∧ noEff tn ∧
    r.qs.m = s.qs.m ++ mn ∧ r.qs.l = s.qs.l ++ ln

/-- The per-job postcondition of the pure-phase induction. -/
def pureSpec (s : St) (j : Job) (r : St) : Prop :=
  match j with
  | .flushPure => Ext s r ∧ (s.fl.p = false → r.qs.p = [])
  | .pureLoop => Ext s r ∧ r.qs.p = []
  | .deliver _ _ => Ext s r
  | .runEdges _ _ => Ext s r
  | .runEdge _ _ => Ext s r
  | _ => True

/-- The scheduler state right after the emitter pushed its delivery task:
`pureQueue = [() => $.next(v)]`, everything else idle. -/
def emitInit (root : Nat) (v : Val) : St :=
  { st0 with qs := { st0.qs with p := [(root, v)] } }

/-- The state at the end of the pure phase of `emit(v)`. -/
def pureRun (g : Graph) (f : Nat) (root : Nat) (v : Val) : St :=
  run g f (emitInit root v) .flushPure

/-- The handler graph after its enclosing scope disposed. -/
def deactivate (g : Graph) : Graph :=
  { edges := g.edges.map (fun e => { e with active := false }),
    effEmits := g.effEmits }

/-! The halt scenario of spec section 8, test 3:
`onValid = on(p => p.length < 3 ? halt('Huh') : p)`, a subscriber on
`onValid`, then `emit('hello'); emit('hi')`. -/

/-- `p => p.length < 3 ? halt('Huh') : p`. -/
def lenCheck : Val → TResult := fun v =>
  match v with
  | .str p => if p.length < 3 then .halted (some "Huh") else .ok (.str p)
  | _ => .thrown "TypeError"

/-- Root stream 0, the validating edge (target 1), and the subscriber of
`onValid` (edge 1, observing stream 1). -/
def haltsGraph : Graph :=
  { edges :=
      [ { src := 0, target := 1, kind := tf lenCheck, active := true },
        { src := 1, target := 2, kind := tf (fun _ => .ok .undefined), active := true } ],
    effEmits := fun _ _ => [] }

/-- The two emissions of the halt test, in order. -/
def haltsRun : St :=
  run haltsGraph 20 (emitRun haltsGraph 20 0 (.str "hello")) (.emitOne 0 (.str "hi"))

/-! ## `createPartition` (lines 346-353, claim C5) -/

/-- The outcome of calling the user predicate: a boolean, or a thrown
`HaltError`, or any other thrown error. -/
inductive PredRes where
  | tru
  | fls
  | hlt (r : Option String)
  | err (m : String)

/-- `p => (predicate(p) ? p : halt())` (line 350). `halt()` throws a
reasonless `HaltError`; a throwing predicate propagates out of the
transform. -/
def partTrue (pred : Val → PredRes) : Val → TResult := fun p =>
  match pred p with
  | .tru => .ok p
  | .fls => .halted none
  | .hlt r => .halted r
  | .err m => .thrown m

/-- `p => (predicate(p) ? halt() : p)` (line 351). -/
def partFalse (pred : Val → PredRes) : Val → TResult := fun p =>
  match pred p with
  | .tru => .halted none
  | .fls => .ok p
  | .hlt r => .halted r
  | .err m => .thrown m

/-- `createPartition(handler, predicate)`: the two sibling transforms, in
subscription order. -/
def createPartition (pred : Val → PredRes) : (Val → TResult) × (Val → TResult) :=
  (partTrue pred, partFalse pred)

/-! The partition scenario of spec section 8 / the `createPartition`
test: `pred = p => p.length >= 3` over strings, observers on both
branches, then `emit('hello'); emit('hi')`. -/

/-- `p => p.length >= 3` (a non-string input would throw). -/
def lenPred : Val → PredRes := fun v =>
  match v with
  | .str p => if 3 ≤ p.length then .tru else .fls
  | _ => .err "TypeError"

/-- Root stream 0, the two partition edges (targets 1 and 2), and one
observer on each branch (edges 2 and 3). -/
def partitionGraph : Graph :=
  { edges :=
      [ { src := 0, target := 1, kind := tf (createPartition lenPred).1, active := true },
        { src := 0, target := 2, kind := tf (createPartition lenPred).2, active := true },
        { src := 1, target := 3, kind := tf (fun _ => .ok .undefined), active := true },
        { src := 2, target := 4, kind := tf (fun _ => .ok .undefined), active := true } ],
    effEmits := fun _ _ => [] }

/-- The two emissions of the partition test, in order. -/
def partitionRun : St :=
  run partitionGraph 20 (emitRun partitionGraph 20 0 (.str "hello")) (.emitOne 0 (.str "hi"))

/-- Plain navigation to a node (no `TypeError` modelling; used to state
what `on` guarantees about the tree). -/
def navNode : TTree → List String → Option TTree
  | t, [] => some t
  | t, k :: ks =>
      match lookupChild t.kidsOf k with
      | some c => navNode c ks
      | none => none

/-! ## Basic interpreter lemmas -/

theorem run_stuck (g : Graph) (f : Nat) (s : St) (j : Job) (h : okSt s = false) :
    run g f s j = s := by
  cases f <;> simp [run, h]

theorem run_zero (g : Graph) (s : St) (j : Job) (h : okSt s = true) :
    run g 0 s j = { s with out := { s.out with fault := some .fuelOut } } := by
  simp [run, h]

theorem okSt_fuelOut (s : St) :
    okSt { s with out := { s.out with fault := some .fuelOut } } = false := rfl

theorem ok_of_run (g : Graph) (f : Nat) (s : St) (j : Job)
    (h : okSt (run g f s j) = true) : okSt s = true := by
  by_cases hs : okSt s = true
  · exact hs
  · rw [run_stuck g f s j (by simpa using hs)] at h
    exact absurd h hs

theorem run_pos (g : Graph) (f : Nat) (s : St) (j : Job)
    (h : okSt (run g f s j) = true) : ∃ f2, f = f2 + 1 := by
  cases f with
  | zero =>
      rw [run_zero g s j (ok_of_run g 0 s j h)] at h
      exact absurd h (by simp [okSt_fuelOut])
  | succ f2 => exact ⟨f2, rfl⟩

/-! Per-job one-step unfolding equations (all definitional). -/

theorem run_flushQueues (g : Graph) (f : Nat) (s : St) :
    run g (f + 1) s .flushQueues =
      if okSt s then run g f (run g f (run g f s .flushPure) .flushMut) .flushLst
      else s := rfl

theorem run_flushPure (g : Graph) (f : Nat) (s : St) :
    run g (f + 1) s .flushPure =
      if okSt s then
        if s.fl.p then s
        else
          let s2 := run g f { s with fl := { s.fl with p := true } } .pureLoop
          if okSt s2 then { s2 with fl := { s2.fl with p := false } } else s2
      else s := rfl

theorem run_pureLoop (g : Graph) (f : Nat) (s : St) :
    run g (f + 1) s .pureLoop =
      if okSt s then
        match s.qs.p with
        | [] => s
        | t :: rest =>
            run g f (run g f { s with qs := { s.qs with p := rest } } (.deliver t.1 t.2)) .pureLoop
      else s := rfl

theorem run_flushMut (g : Graph) (f : Nat) (s : St) :
    run g (f + 1) s .flushMut =
      if okSt s then
        if s.fl.m then s
        else
          let s2 := run g f { s with fl := { s.fl with m := true } } (.runMutTasks s.qs.m)
          if okSt s2 then { s2 with qs := { s2.qs with m := [] }, fl := { s2.fl with m := false } }
          else s2
      else s := rfl

theorem run_flushLst (g : Graph) (f : Nat) (s : St) :
    run g (f + 1) s .flushLst =
      if okSt s then
        if s.fl.l then s
        else
          let s2 := run g f { s with fl := { s.fl with l := true } } (.runLstTasks s.qs.l)
          if okSt s2 then { s2 with qs := { s2.qs with l := [] }, fl := { s2.fl with l := false } }
          else s2
      else s := rfl

theorem run_runMutTasks (g : Graph) (f : Nat) (s : St) (ts : List (Nat × Val)) :
    run g (f + 1) s (.runMutTasks ts) =
      if okSt s then
        match ts with
        | [] => s
        | t :: rest => run g f (run g f s (.runEffect t.1 t.2)) (.runMutTasks rest)
      else s := rfl

theorem run_runLstTasks (g : Graph) (f : Nat) (s : St) (ts : List (Nat × Val)) :
    run g (f + 1) s (.runLstTasks ts) =
      if okSt s then
        match ts with
        | [] => s
        | t :: rest => run g f (run g f s (.runEffect t.1 t.2)) (.runLstTasks rest)
      else s := rfl

theorem run_runEffect (g : Graph) (f : Nat) (s : St) (i : Nat) (v : Val) :
    run g (f + 1) s (.runEffect i v) =
      if okSt s then
        run g f { s with out := { s.out with trace := s.out.trace ++ [.eff i v] } }
          (.doEmits (g.effEmits i v))
      else s := rfl

theorem run_doEmits (g : Graph) (f : Nat) (s : St) (ems : List (Nat × Val)) :
    run g (f + 1) s (.doEmits ems) =
      if okSt s then
        match ems with
        | [] => s
        | e :: rest => run g f (run g f s (.emitOne e.1 e.2)) (.doEmits rest)
      else s := rfl

theorem run_emitOne (g : Graph) (f : Nat) (s : St) (stream : Nat) (v : Val) :
    run g (f + 1) s (.emitOne stream v) =
      if okSt s then
        run g f { s with qs := { s.qs with p := s.qs.p ++ [(stream, v)] } } .flushQueues
      else s := rfl

theorem run_deliver (g : Graph) (f : Nat) (s : St) (stream : Nat) (v : Val) :
    run g (f + 1) s (.deliver stream v) =
      if okSt s then run g f s (.runEdges (subsIdx g stream) v) else s := rfl

theorem run_runEdges (g : Graph) (f : Nat) (s : St) (idxs : List Nat) (v : Val) :
    run g (f + 1) s (.runEdges idxs v) =
      if okSt s then
        match idxs with
        | [] => s
        | i :: rest => run g f (run g f s (.runEdge i v)) (.runEdges rest v)
      else s := rfl

theorem run_runEdge (g : Graph) (f : Nat) (s : St) (i : Nat) (v : Val) :
    run g (f + 1) s (.runEdge i v) =
      if okSt s then
        match g.edges[i]? with
        | none => s
        | some e =>
            let s1 := { s with out := { s.out with trace := s.out.trace ++ [.call i v] } }
            match e.kind with
            | .ltn effId =>
                { s1 with qs :=
                    { s1.qs with
                      l := s1.qs.l ++ [(effId, v)]
                      p := s1.qs.p ++ [(e.target, .undefined)] } }
            | .mtn effId =>
                { s1 with qs :=
                    { s1.qs with
                      m := s1.qs.m ++ [(effId, v)]
                      p := s1.qs.p ++ [(e.target, .undefined)] } }
            | .tfm em fc =>
                let s2 := run g f s1 (.doEmits (em v))
                if okSt s2 then
                  match fc v with
                  | .ok o => { s2 with qs := { s2.qs with p := s2.qs.p ++ [(e.target, o)] } }
                  | .halted r =>
                      { s2 with out := { s2.out with trace := s2.out.trace ++ [.info (haltMsg r)] } }
                  | .thrown m => { s2 with out := { s2.out with fault := some (.thrownErr m) } }
                else s2
      else s := rfl

/-- `okSt` only looks at the fault; queue updates preserve it. -/
theorem okSt_qs (s : St) (q : Queues) : okSt { s with qs := q } = okSt s := rfl

/-- Flag updates preserve `okSt`. -/
theorem okSt_fl (s : St) (fl2 : Flags) : okSt { s with fl := fl2 } = okSt s := rfl

/-- Trace appends preserve `okSt`. -/
theorem okSt_trace (s : St) (tr : List Ev) :
    okSt { s with out := { s.out with trace := tr } } = okSt s := rfl

/-! Conditional one-step equations, with the guards discharged. -/

theorem runc_flushQueues (g : Graph) (f : Nat) (s : St) (h : okSt s = true) :
    run g (f + 1) s .flushQueues =
      run g f (run g f (run g f s .flushPure) .flushMut) .flushLst := by
  rw [run_flushQueues]; simp [h]

theorem runc_flushPure_guard (g : Graph) (f : Nat) (s : St) (h : okSt s = true)
    (hp : s.fl.p = true) : run g (f + 1) s .flushPure = s := by
  rw [run_flushPure]; simp [h, hp]

theorem runc_flushPure (g : Graph) (f : Nat) (s : St) (h : okSt s = true)
    (hp : s.fl.p = false) :
    run g (f + 1) s .flushPure =
      (let s2 := run g f { s with fl := { s.fl with p := true } } .pureLoop
       if okSt s2 then { s2 with fl := { s2.fl with p := false } } else s2) := by
  rw [run_flushPure]; simp [h, hp]

theorem runc_pureLoop_nil (g : Graph) (f : Nat) (s : St) (h : okSt s = true)
    (hq : s.qs.p = []) : run g (f + 1) s .pureLoop = s := by
  rw [run_pureLoop]; simp [h, hq]

theorem runc_pureLoop_cons (g : Graph) (f : Nat) (s : St) (t : Nat × Val)
    (rest : List (Nat × Val)) (h : okSt s = true) (hq : s.qs.p = t :: rest) :
    run g (f + 1) s .pureLoop =
      run g f (run g f { s with qs := { s.qs with p := rest } } (.deliver t.1 t.2)) .pureLoop := by
  rw [run_pureLoop]; simp [h, hq]

theorem runc_flushMut_guard (g : Graph) (f : Nat) (s : St) (h : okSt s = true)
    (hm : s.fl.m = true) : run g (f + 1) s .flushMut = s := by
  rw [run_flushMut]; simp [h, hm]

theorem runc_flushMut (g : Graph) (f : Nat) (s : St) (h : okSt s = true)
    (hm : s.fl.m = false) :
    run g (f + 1) s .flushMut =
      (let s2 := run g f { s with fl := { s.fl with m := true } } (.runMutTasks s.qs.m)
       if okSt s2 then { s2 with qs := { s2.qs with m := [] }, fl := { s2.fl with m := false } }
       else s2) := by
  rw [run_flushMut]; simp [h, hm]

theorem runc_flushLst_guard (g : Graph) (f : Nat) (s : St) (h : okSt s = true)
    (hl : s.fl.l = true) : run g (f + 1) s .flushLst = s := by
  rw [run_flushLst]; simp [h, hl]

theorem runc_flushLst (g : Graph) (f : Nat) (s : St) (h : okSt s = true)
    (hl : s.fl.l = false) :
    run g (f + 1) s .flushLst =
      (let s2 := run g f { s with fl := { s.fl with l := true } } (.runLstTasks s.qs.l)
       if okSt s2 then { s2 with qs := { s2.qs with l := [] }, fl := { s2.fl with l := false } }
       else s2) := by
  rw [run_flushLst]; simp [h, hl]

theorem runc_runMutTasks_nil (g : Graph) (f : Nat) (s : St) (h : okSt s = true) :
    run g (f + 1) s (.runMutTasks []) = s := by
  rw [run_runMutTasks]; simp [h]

theorem runc_runMutTasks_cons (g : Graph) (f : Nat) (s : St) (t : Nat × Val)
    (rest : List (Nat × Val)) (h : okSt s = true) :
    run g (f + 1) s (.runMutTasks (t :: rest)) =
      run g f (run g f s (.runEffect t.1 t.2)) (.runMutTasks rest) := by
  rw [run_runMutTasks]; simp [h]

theorem runc_runLstTasks_nil (g : Graph) (f : Nat) (s : St) (h : okSt s = true) :
    run g (f + 1) s (.runLstTasks []) = s := by
  rw [run_runLstTasks]; simp [h]

theorem runc_runLstTasks_cons (g : Graph) (f : Nat) (s : St) (t : Nat × Val)
    (rest : List (Nat × Val)) (h : okSt s = true) :
    run g (f + 1) s (.runLstTasks (t :: rest)) =
      run g f (run g f s (.runEffect t.1 t.2)) (.runLstTasks rest) := by
  rw [run_runLstTasks]; simp [h]

theorem runc_runEffect (g : Graph) (f : Nat) (s : St) (i : Nat) (v : Val)
    (h : okSt s = true) :
    run g (f + 1) s (.runEffect i v) =
      run g f { s with out := { s.out with trace := s.out.trace ++ [.eff i v] } }
        (.doEmits (g.effEmits i v)) := by
  rw [run_runEffect]; simp [h]

theorem runc_doEmits_nil (g : Graph) (f : Nat) (s : St) (h : okSt s = true) :
    run g (f + 1) s (.doEmits []) = s := by
  rw [run_doEmits]; simp [h]

theorem runc_doEmits_cons (g : Graph) (f : Nat) (s : St) (e : Nat × Val)
    (rest : List (Nat × Val)) (h : okSt s = true) :
    run g (f + 1) s (.doEmits (e :: rest)) =
      run g f (run g f s (.emitOne e.1 e.2)) (.doEmits rest) := by
  rw [run_doEmits]; simp [h]

theorem runc_emitOne (g : Graph) (f : Nat) (s : St) (stream : Nat) (v : Val)
    (h : okSt s = true) :
    run g (f + 1) s (.emitOne stream v) =
      run g f { s with qs := { s.qs with p := s.qs.p ++ [(stream, v)] } } .flushQueues := by
  rw [run_emitOne]; simp [h]

theorem runc_deliver (g : Graph) (f : Nat) (s : St) (stream : Nat) (v : Val)
    (h : okSt s = true) :
    run g (f + 1) s (.deliver stream v) = run g f s (.runEdges (subsIdx g stream) v) := by
  rw [run_deliver]; simp [h]

theorem runc_runEdges_nil (g : Graph) (f : Nat) (s : St) (v : Val) (h : okSt s = true) :
    run g (f + 1) s (.runEdges [] v) = s := by
  rw [run_runEdges]; simp [h]

theorem runc_runEdges_cons (g : Graph) (f : Nat) (s : St) (i : Nat) (rest : List Nat)
    (v : Val) (h : okSt s = true) :
    run g (f + 1) s (.runEdges (i :: rest) v) =
      run g f (run g f s (.runEdge i v)) (.runEdges rest v) := by
  rw [run_runEdges]; simp [h]

theorem runc_runEdge_none (g : Graph) (f : Nat) (s : St) (i : Nat) (v : Val)
    (h : okSt s = true) (he : g.edges[i]? = none) :
    run g (f + 1) s (.runEdge i v) = s := by
  rw [run_runEdge]; simp [h, he]

theorem runc_runEdge_ltn (g : Graph) (f : Nat) (s : St) (i : Nat) (v : Val) (e : Edge)
    (effId : Nat) (h : okSt s = true) (he : g.edges[i]? = some e)
    (hk : e.kind = .ltn effId) :
    run g (f + 1) s (.runEdge i v) =
      { s with
        qs := { s.qs with
                l := s.qs.l ++ [(effId, v)]
                p := s.qs.p ++ [(e.target, .undefined)] }
        out := { s.out with trace := s.out.trace ++ [.call i v] } } := by
  rw [run_runEdge]; simp [h, he, hk]

theorem runc_runEdge_mtn (g : Graph) (f : Nat) (s : St) (i : Nat) (v : Val) (e : Edge)
    (effId : Nat) (h : okSt s = true) (he : g.edges[i]? = some e)
    (hk : e.kind = .mtn effId) :
    run g (f + 1) s (.runEdge i v) =
      { s with
        qs := { s.qs with
                m := s.qs.m ++ [(effId, v)]
                p := s.qs.p ++ [(e.target, .undefined)] }
        out := { s.out with trace := s.out.trace ++ [.call i v] } } := by
  rw [run_runEdge]; simp [h, he, hk]

theorem runc_runEdge_tfm (g : Graph) (f : Nat) (s : St) (i : Nat) (v : Val) (e : Edge)
    (em : Val → List (Nat × Val)) (fc : Val → TResult) (h : okSt s = true)
    (he : g.edges[i]? = some e) (hk : e.kind = .tfm em fc) :
    run g (f + 1) s (.runEdge i v) =
      (let s1 := { s with out := { s.out with trace := s.out.trace ++ [.call i v] } }
       let s2 := run g f s1 (.doEmits (em v))
       if okSt s2 then
         match fc v with
         | .ok o => { s2 with qs := { s2.qs with p := s2.qs.p ++ [(e.target, o)] } }
         | .halted r =>
             { s2 with out := { s2.out with trace := s2.out.trace ++ [.info (haltMsg r)] } }
         | .thrown m => { s2 with out := { s2.out with fault := some (.thrownErr m) } }
       else s2) := by
  rw [run_runEdge]; simp [h, he, hk]

/-! ## The queue invariants (master induction)

For every job that completes without a fault: the three running flags are
restored to their entry values, and the queue-emptiness clauses below
hold. `pPres` says a drained pure queue stays drained (every emitter call
flushes it again); `mPres` likewise for the mutation queue. Together they
give the claim-level facts: a full `flushQueues` from an idle scheduler
leaves all three queues empty, and each drain is reentrancy-guarded. -/

/-- Master invariant: a run that finishes without a fault restores the
running flags and satisfies its job's queue clauses. -/
theorem runSpec (g : Graph) :
    ∀ f s j, okSt s = true → okSt (run g f s j) = true →
      (run g f s j).fl = s.fl ∧ qSpec s j (run g f s j) := by
  intro f
  induction f with
  | zero =>
      intro s j hok hr
      rw [run_zero g s j hok] at hr
      simp [okSt_fuelOut] at hr
  | succ f ih =>
      intro s j hok hr
      cases j with
      | flushQueues =>
          rw [runc_flushQueues g f s hok] at hr ⊢
          have hokb : okSt (run g f (run g f s .flushPure) .flushMut) = true :=
            ok_of_run _ _ _ _ hr
          have hoka : okSt (run g f s .flushPure) = true := ok_of_run _ _ _ _ hokb
          obtain ⟨hfa, hqa⟩ := ih s .flushPure hok hoka
          obtain ⟨hfb, hqb⟩ := ih (run g f s .flushPure) .flushMut hoka hokb
          obtain ⟨hfc, hqc⟩ := ih (run g f (run g f s .flushPure) .flushMut) .flushLst hokb hr
          simp only [qSpec] at hqa hqb hqc ⊢
          refine ⟨by rw [hfc, hfb, hfa], ?_, ?_, ?_⟩
          · intro hp
            exact hqc.2.1 (by rw [hfb, hfa, hp]) (hqb.2 (by rw [hfa, hp]) (hqa hp))
          · intro hp hm
            exact hqc.2.2 (by rw [hfb, hfa, hp]) (by rw [hfb, hfa, hm])
              (hqb.1 (by rw [hfa, hm]))
          · intro hl
            exact hqc.1 (by rw [hfb, hfa, hl])
      | flushPure =>
          by_cases hp : s.fl.p
          · rw [runc_flushPure_guard g f s hok hp] at hr ⊢
            simp [qSpec, hp]
          · simp only [Bool.not_eq_true] at hp
            rw [runc_flushPure g f s hok hp] at hr ⊢
            simp only at hr ⊢
            have hok1 : okSt { s with fl := { s.fl with p := true } } = true := by
              rw [okSt_fl]; exact hok
            by_cases hok2 : okSt (run g f { s with fl := { s.fl with p := true } } .pureLoop) = true
            · obtain ⟨hfa, hqa⟩ := ih _ .pureLoop hok1 hok2
              simp only [qSpec] at hqa
              rw [if_pos hok2] at hr ⊢
              constructor
              · simp only [hfa]
                cases hfl : s.fl with
                | mk a b c => simp_all
              · intro _
                exact hqa
            · rw [if_neg hok2] at hr
              exact absurd hr hok2
      | pureLoop =>
          cases hq : s.qs.p with
          | nil =>
              rw [runc_pureLoop_nil g f s hok hq] at hr ⊢
              simp [qSpec, hq]
          | cons t rest =>
              rw [runc_pureLoop_cons g f s t rest hok hq] at hr ⊢
              have hok2 : okSt (run g f { s with qs := { s.qs with p := rest } } (.deliver t.1 t.2)) = true :=
                ok_of_run _ _ _ _ hr
              have hok1 : okSt { s with qs := { s.qs with p := rest } } = true := by
                rw [okSt_qs]; exact hok
              obtain ⟨hfa, _⟩ := ih _ (.deliver t.1 t.2) hok1 hok2
              obtain ⟨hfb, hqb⟩ := ih _ .pureLoop hok2 hr
              simp only [qSpec] at hqb ⊢
              exact ⟨by rw [hfb, hfa], hqb⟩
      | flushMut =>
          by_cases hm : s.fl.m
          · rw [runc_flushMut_guard g f s hok hm] at hr ⊢
            simp [qSpec, hm, pPres]
          · simp only [Bool.not_eq_true] at hm
            rw [runc_flushMut g f s hok hm] at hr ⊢
            simp only at hr ⊢
            have hok1 : okSt { s with fl := { s.fl with m := true } } = true := by
              rw [okSt_fl]; exact hok
            by_cases hok2 : okSt (run g f { s with fl := { s.fl with m := true } } (.runMutTasks s.qs.m)) = true
            · obtain ⟨hfa, hqa⟩ := ih _ (.runMutTasks s.qs.m) hok1 hok2
              simp only [qSpec, pPres] at hqa
              rw [if_pos hok2] at hr ⊢
              refine ⟨?_, ?_, ?_⟩
              · simp only [hfa]
                cases hfl : s.fl with
                | mk a b c => simp_all
              · intro _; rfl
              · intro hp hpe
                exact hqa.1 (by simp [hfa, hp]) (by simpa using hpe)
            · rw [if_neg hok2] at hr
              exact absurd hr hok2
      | flushLst =>
          by_cases hl : s.fl.l
          · rw [runc_flushLst_guard g f s hok hl] at hr ⊢
            simp [qSpec, hl, pPres, mPres]
          · simp only [Bool.not_eq_true] at hl
            rw [runc_flushLst g f s hok hl] at hr ⊢
            simp only at hr ⊢
            have hok1 : okSt { s with fl := { s.fl with l := true } } = true := by
              rw [okSt_fl]; exact hok
            by_cases hok2 : okSt (run g f { s with fl := { s.fl with l := true } } (.runLstTasks s.qs.l)) = true
            · obtain ⟨hfa, hqa⟩ := ih _ (.runLstTasks s.qs.l) hok1 hok2
              simp only [qSpec, pPres, mPres] at hqa
              rw [if_pos hok2] at hr ⊢
              refine ⟨?_, ?_, ?_, ?_⟩
              · simp only [hfa]
                cases hfl : s.fl with
                | mk a b c => simp_all
              · intro _; rfl
              · intro hp hpe
                exact hqa.1 (by simp [hfa, hp]) (by simpa using hpe)
              · intro hp hm hme
                exact hqa.2 (by simp [hfa, hp]) (by simp [hfa, hm]) (by simpa using hme)
            · rw [if_neg hok2] at hr
              exact absurd hr hok2
      | runMutTasks ts =>
          cases ts with
          | nil =>
              rw [runc_runMutTasks_nil g f s hok] at hr ⊢
              simp [qSpec, pPres, mPres]
          | cons t rest =>
              rw [runc_runMutTasks_cons g f s t rest hok] at hr ⊢
              have hok2 : okSt (run g f s (.runEffect t.1 t.2)) = true := ok_of_run _ _ _ _ hr
              obtain ⟨hfa, hqa⟩ := ih s (.runEffect t.1 t.2) hok hok2
              obtain ⟨hfb, hqb⟩ := ih _ (.runMutTasks rest) hok2 hr
              simp only [qSpec, pPres, mPres] at hqa hqb ⊢
              refine ⟨by rw [hfb, hfa], ?_, ?_⟩
              · intro hp hpe
                exact hqb.1 (by rw [hfa, hp]) (hqa.1 hp hpe)
              · intro hp hm hme
                exact hqb.2 (by rw [hfa, hp]) (by rw [hfa, hm]) (hqa.2 hp hm hme)
      | runLstTasks ts =>
          cases ts with
          | nil =>
              rw [runc_runLstTasks_nil g f s hok] at hr ⊢
              simp [qSpec, pPres, mPres]
          | cons t rest =>
              rw [runc_runLstTasks_cons g f s t rest hok] at hr ⊢
              have hok2 : okSt (run g f s (.runEffect t.1 t.2)) = true := ok_of_run _ _ _ _ hr
              obtain ⟨hfa, hqa⟩ := ih s (.runEffect t.1 t.2) hok hok2
              obtain ⟨hfb, hqb⟩ := ih _ (.runLstTasks rest) hok2 hr
              simp only [qSpec, pPres, mPres] at hqa hqb ⊢
              refine ⟨by rw [hfb, hfa], ?_, ?_⟩
              · intro hp hpe
                exact hqb.1 (by rw [hfa, hp]) (hqa.1 hp hpe)
              · intro hp hm hme
                exact hqb.2 (by rw [hfa, hp]) (by rw [hfa, hm]) (hqa.2 hp hm hme)
      | runEffect i v =>
          rw [runc_runEffect g f s i v hok] at hr ⊢
          have hok1 : okSt { s with out := { s.out with trace := s.out.trace ++ [.eff i v] } } = true := by
            rw [okSt_trace]; exact hok
          obtain ⟨hfa, hqa⟩ := ih _ (.doEmits (g.effEmits i v)) hok1 hr
          simp only [qSpec, pPres, mPres] at hqa ⊢
          exact ⟨hfa, hqa⟩
      | doEmits ems =>
          cases ems with
          | nil =>
              rw [runc_doEmits_nil g f s hok] at hr ⊢
              simp [qSpec, pPres, mPres]
          | cons e rest =>
              rw [runc_doEmits_cons g f s e rest hok] at hr ⊢
              have hok2 : okSt (run g f s (.emitOne e.1 e.2)) = true := ok_of_run _ _ _ _ hr
              obtain ⟨hfa, hqa⟩ := ih s (.emitOne e.1 e.2) hok hok2
              obtain ⟨hfb, hqb⟩ := ih _ (.doEmits rest) hok2 hr
              simp only [qSpec, pPres, mPres] at hqa hqb ⊢
              refine ⟨by rw [hfb, hfa], ?_, ?_⟩
              · intro hp _
                exact hqb.1 (by rw [hfa, hp]) (hqa.1 hp)
              · intro hp hm _
                exact hqb.2 (by rw [hfa, hp]) (by rw [hfa, hm]) (hqa.2 hp hm)
      | emitOne stream v =>
          rw [runc_emitOne g f s stream v hok] at hr ⊢
          have hok1 : okSt { s with qs := { s.qs with p := s.qs.p ++ [(stream, v)] } } = true := by
            rw [okSt_qs]; exact hok
          obtain ⟨hfa, hqa⟩ := ih _ .flushQueues hok1 hr
          simp only [qSpec] at hqa ⊢
          exact ⟨hfa, hqa.1, hqa.2.1⟩
      | deliver stream v =>
          rw [runc_deliver g f s stream v hok] at hr ⊢
          obtain ⟨hfa, _⟩ := ih s (.runEdges (subsIdx g stream) v) hok hr
          exact ⟨hfa, trivial⟩
      | runEdges idxs v =>
          cases idxs with
          | nil =>
              rw [runc_runEdges_nil g f s v hok] at hr ⊢
              exact ⟨rfl, trivial⟩
          | cons i rest =>
              rw [runc_runEdges_cons g f s i rest v hok] at hr ⊢
              have hok2 : okSt (run g f s (.runEdge i v)) = true := ok_of_run _ _ _ _ hr
              obtain ⟨hfa, _⟩ := ih s (.runEdge i v) hok hok2
              obtain ⟨hfb, _⟩ := ih _ (.runEdges rest v) hok2 hr
              exact ⟨by rw [hfb, hfa], trivial⟩
      | runEdge i v =>
          cases he : g.edges[i]? with
          | none =>
              rw [runc_runEdge_none g f s i v hok he] at hr ⊢
              exact ⟨rfl, trivial⟩
          | some e =>
              cases hk : e.kind with
              | ltn effId =>
                  rw [runc_runEdge_ltn g f s i v e effId hok he hk] at hr ⊢
                  exact ⟨rfl, trivial⟩
              | mtn effId =>
                  rw [runc_runEdge_mtn g f s i v e effId hok he hk] at hr ⊢
                  exact ⟨rfl, trivial⟩
              | tfm em fc =>
                  rw [runc_runEdge_tfm g f s i v e em fc hok he hk] at hr ⊢
                  simp only at hr ⊢
                  have hok1 : okSt { s with out := { s.out with trace := s.out.trace ++ [.call i v] } } = true := by
                    rw [okSt_trace]; exact hok
                  by_cases hok2 : okSt (run g f { s with out := { s.out with trace := s.out.trace ++ [.call i v] } } (.doEmits (em v))) = true
                  · obtain ⟨hfa, _⟩ := ih _ (.doEmits (em v)) hok1 hok2
                    rw [if_pos hok2] at hr ⊢
                    cases hfc : fc v with
                    | ok o => simp only [hfc] at hr ⊢; exact ⟨hfa, trivial⟩
                    | halted r => simp only [hfc] at hr ⊢; exact ⟨hfa, trivial⟩
                    | thrown m =>
                        simp only [hfc] at hr
                        exact absurd hr (by simp [okSt])
                  · rw [if_neg hok2] at hr
                    exact absurd hr hok2

/-! ## The pure phase under pure transforms

When no transform in the graph calls an emitter reentrantly (every
transform is a pure function), the pure drain only invokes callbacks and
enqueues onto the mutation and listener queues: it appends no `eff` event
to the trace, and the two effect queues only grow, in enqueue order. -/

theorem Ext_refl (s : St) : Ext s s :=
  ⟨rfl, [], [], [], by simp, by simp [noEff], by simp, by simp⟩

theorem Ext_trans {a b c : St} (h1 : Ext a b) (h2 : Ext b c) : Ext a c := by
  obtain ⟨hf1, t1, m1, l1, ht1, hn1, hm1, hl1⟩ := h1
  obtain ⟨hf2, t2, m2, l2, ht2, hn2, hm2, hl2⟩ := h2
  refine ⟨hf2.trans hf1, t1 ++ t2, m1 ++ m2, l1 ++ l2, ?_, ?_, ?_, ?_⟩
  · rw [ht2, ht1, List.append_assoc]
  · intro e he
    rcases List.mem_append.mp he with h | h
    · exact hn1 e h
    · exact hn2 e h
  · rw [hm2, hm1, List.append_assoc]
  · rw [hl2, hl1, List.append_assoc]

/-- Pure-phase induction: with no reentrant emitter calls, the pure drain
satisfies `Ext` and empties the pure queue. -/
theorem pureRunSpec (g : Graph) (hnr : noReentrant g) :
    ∀ f s j, okSt s = true → okSt (run g f s j) = true → pureSpec s j (run g f s j) := by
  intro f
  induction f with
  | zero =>
      intro s j hok hr
      rw [run_zero g s j hok] at hr
      simp [okSt_fuelOut] at hr
  | succ f ih =>
      intro s j hok hr
      cases j with
      | flushQueues => simp [pureSpec]
      | flushMut => simp [pureSpec]
      | flushLst => simp [pureSpec]
      | runMutTasks ts => simp [pureSpec]
      | runLstTasks ts => simp [pureSpec]
      | runEffect i v => simp [pureSpec]
      | doEmits ems => simp [pureSpec]
      | emitOne stream v => simp [pureSpec]
      | flushPure =>
          by_cases hp : s.fl.p
          · rw [runc_flushPure_guard g f s hok hp] at hr ⊢
            simp [pureSpec, hp, Ext_refl]
          · simp only [Bool.not_eq_true] at hp
            rw [runc_flushPure g f s hok hp] at hr ⊢
            simp only at hr ⊢
            have hok1 : okSt { s with fl := { s.fl with p := true } } = true := by
              rw [okSt_fl]; exact hok
            by_cases hok2 : okSt (run g f { s with fl := { s.fl with p := true } } .pureLoop) = true
            · have hqa := ih _ .pureLoop hok1 hok2
              simp only [pureSpec] at hqa
              obtain ⟨⟨hfa, tn, mn, ln, ht, hnn, hm, hl⟩, hpq⟩ := hqa
              rw [if_pos hok2] at hr ⊢
              refine ⟨⟨?_, tn, mn, ln, ht, hnn, hm, hl⟩, fun _ => hpq⟩
              simp only [hfa]
              cases hfl : s.fl with
              | mk a b c => simp_all
            · rw [if_neg hok2] at hr
              exact absurd hr hok2
      | pureLoop =>
          cases hq : s.qs.p with
          | nil =>
              rw [runc_pureLoop_nil g f s hok hq] at hr ⊢
              simp [pureSpec, hq, Ext_refl]
          | cons t rest =>
              rw [runc_pureLoop_cons g f s t rest hok hq] at hr ⊢
              have hok2 : okSt (run g f { s with qs := { s.qs with p := rest } } (.deliver t.1 t.2)) = true :=
                ok_of_run _ _ _ _ hr
              have hok1 : okSt { s with qs := { s.qs with p := rest } } = true := by
                rw [okSt_qs]; exact hok
              have hda := ih _ (.deliver t.1 t.2) hok1 hok2
              have hpb := ih _ .pureLoop hok2 hr
              simp only [pureSpec] at hda hpb ⊢
              exact ⟨Ext_trans (Ext_trans (Ext_refl s) hda) hpb.1, hpb.2⟩
      | deliver stream v =>
          rw [runc_deliver g f s stream v hok] at hr ⊢
          have := ih s (.runEdges (subsIdx g stream) v) hok hr
          simpa [pureSpec] using this
      | runEdges idxs v =>
          cases idxs with
          | nil =>
              rw [runc_runEdges_nil g f s v hok] at hr ⊢
              simp [pureSpec, Ext_refl]
          | cons i rest =>
              rw [runc_runEdges_cons g f s i rest v hok] at hr ⊢
              have hok2 : okSt (run g f s (.runEdge i v)) = true := ok_of_run _ _ _ _ hr
              have h1 := ih s (.runEdge i v) hok hok2
              have h2 := ih _ (.runEdges rest v) hok2 hr
              simp only [pureSpec] at h1 h2 ⊢
              exact Ext_trans h1 h2
      | runEdge i v =>
          cases he : g.edges[i]? with
          | none =>
              rw [runc_runEdge_none g f s i v hok he] at hr ⊢
              simp [pureSpec, Ext_refl]
          | some e =>
              have hmem : e ∈ g.edges := by
                obtain ⟨hlt, hg⟩ := List.getElem?_eq_some.mp he
                exact hg ▸ List.getElem_mem hlt
              cases hk : e.kind with
              | ltn effId =>
                  rw [runc_runEdge_ltn g f s i v e effId hok he hk] at hr ⊢
                  exact ⟨rfl, [.call i v], [], [(effId, v)], rfl, by simp [noEff, isEffEv],
                    by simp, rfl⟩
              | mtn effId =>
                  rw [runc_runEdge_mtn g f s i v e effId hok he hk] at hr ⊢
                  exact ⟨rfl, [.call i v], [(effId, v)], [], rfl, by simp [noEff, isEffEv],
                    rfl, by simp⟩
              | tfm em fc =>
                  rw [runc_runEdge_tfm g f s i v e em fc hok he hk] at hr ⊢
                  simp only at hr ⊢
                  have hem : em v = [] := by
                    have := hnr e hmem v
                    rw [edgeEmits, hk] at this
                    exact this
                  rw [hem] at hr ⊢
                  have hok1 : okSt { s with out := { s.out with trace := s.out.trace ++ [.call i v] } } = true := by
                    rw [okSt_trace]; exact hok
                  cases f with
                  | zero =>
                      rw [run_zero _ _ _ hok1] at hr
                      simp [okSt] at hr
                  | succ f2 =>
                      rw [runc_doEmits_nil _ _ _ hok1] at hr ⊢
                      rw [if_pos hok1] at hr ⊢
                      cases hfc : fc v with
                      | ok o =>
                          simp only [hfc] at hr ⊢
                          exact ⟨rfl, [.call i v], [], [], rfl, by simp [noEff, isEffEv],
                            by simp, by simp⟩
                      | halted r =>
                          simp only [hfc] at hr ⊢
                          exact ⟨rfl, [.call i v, .info (haltMsg r)], [], [],
                            by simp, by simp [noEff, isEffEv], by simp, by simp⟩
                      | thrown m =>
                          simp only [hfc] at hr
                          exact absurd hr (by simp [okSt])

/-! ## Draining the effect queues when effects perform no emitter calls -/

theorem runEffectNoEff (g : Graph) (hne : noEffEmits g) (f : Nat) (s : St) (i : Nat)
    (v : Val) (hok : okSt s = true)
    (hr : okSt (run g f s (.runEffect i v)) = true) :
    run g f s (.runEffect i v) =
      { s with out := { s.out with trace := s.out.trace ++ [.eff i v] } } := by
  obtain ⟨f1, rfl⟩ := run_pos _ _ _ _ hr
  rw [runc_runEffect _ _ _ _ _ hok] at hr ⊢
  rw [hne i v] at hr ⊢
  have hok1 : okSt { s with out := { s.out with trace := s.out.trace ++ [.eff i v] } } = true := by
    rw [okSt_trace]; exact hok
  obtain ⟨f2, rfl⟩ := run_pos _ _ _ _ hr
  exact runc_doEmits_nil _ _ _ hok1

theorem runMutTasksNoEff (g : Graph) (hne : noEffEmits g) :
    ∀ (ts : List (Nat × Val)) (f : Nat) (s : St), okSt s = true →
      okSt (run g f s (.runMutTasks ts)) = true →
      run g f s (.runMutTasks ts) =
        { s with out := { s.out with trace := s.out.trace ++ ts.map effEv } } := by
  intro ts
  induction ts with
  | nil =>
      intro f s hok hr
      obtain ⟨f1, rfl⟩ := run_pos _ _ _ _ hr
      rw [runc_runMutTasks_nil _ _ _ hok]
      simp
  | cons t rest ihr =>
      intro f s hok hr
      obtain ⟨f1, rfl⟩ := run_pos _ _ _ _ hr
      rw [runc_runMutTasks_cons _ _ _ _ _ hok] at hr ⊢
      have hok2 : okSt (run g f1 s (.runEffect t.1 t.2)) = true := ok_of_run _ _ _ _ hr
      rw [runEffectNoEff g hne f1 s t.1 t.2 hok hok2] at hr ⊢
      rw [ihr f1 _ (by rw [okSt_trace]; exact hok) hr]
      simp [effEv]

theorem runLstTasksNoEff (g : Graph) (hne : noEffEmits g) :
    ∀ (ts : List (Nat × Val)) (f : Nat) (s : St), okSt s = true →
      okSt (run g f s (.runLstTasks ts)) = true →
      run g f s (.runLstTasks ts) =
        { s with out := { s.out with trace := s.out.trace ++ ts.map effEv } } := by
  intro ts
  induction ts with
  | nil =>
      intro f s hok hr
      obtain ⟨f1, rfl⟩ := run_pos _ _ _ _ hr
      rw [runc_runLstTasks_nil _ _ _ hok]
      simp
  | cons t rest ihr =>
      intro f s hok hr
      obtain ⟨f1, rfl⟩ := run_pos _ _ _ _ hr
      rw [runc_runLstTasks_cons _ _ _ _ _ hok] at hr ⊢
      have hok2 : okSt (run g f1 s (.runEffect t.1 t.2)) = true := ok_of_run _ _ _ _ hr
      rw [runEffectNoEff g hne f1 s t.1 t.2 hok hok2] at hr ⊢
      rw [ihr f1 _ (by rw [okSt_trace]; exact hok) hr]
      simp [effEv]

/-- With no effect emitter calls, `flushMutationListeners` from an idle
mutation drain runs the queued mutation effects in enqueue order and
clears the queue (lines 405-411). -/
theorem flushMutNoEff (g : Graph) (hne : noEffEmits g) (f : Nat) (s : St)
    (hok : okSt s = true) (hm : s.fl.m = false)
    (hr : okSt (run g (f + 1) s .flushMut) = true) :
    run g (f + 1) s .flushMut =
      { s with qs := { s.qs with m := [] },
               out := { s.out with trace := s.out.trace ++ s.qs.m.map effEv } } := by
  rw [runc_flushMut _ _ _ hok hm] at hr ⊢
  simp only at hr ⊢
  have hok1 : okSt { s with fl := { s.fl with m := true } } = true := by
    rw [okSt_fl]; exact hok
  by_cases hok2 : okSt (run g f { s with fl := { s.fl with m := true } } (.runMutTasks s.qs.m)) = true
  · rw [runMutTasksNoEff g hne _ _ _ hok1 hok2] at hr ⊢
    rw [if_pos (by rw [okSt_trace]; exact hok1)]
    cases s with
    | mk qs fl out =>
        cases fl with
        | mk a b c => simp_all
  · rw [if_neg hok2] at hr
    exact absurd hr hok2

/-- With no effect emitter calls, `flushListeners` from an idle listener
drain runs the queued listener effects in enqueue order and clears the
queue (lines 383-389). -/
theorem flushLstNoEff (g : Graph) (hne : noEffEmits g) (f : Nat) (s : St)
    (hok : okSt s = true) (hl : s.fl.l = false)
    (hr : okSt (run g (f + 1) s .flushLst) = true) :
    run g (f + 1) s .flushLst =
      { s with qs := { s.qs with l := [] },
               out := { s.out with trace := s.out.trace ++ s.qs.l.map effEv } } := by
  rw [runc_flushLst _ _ _ hok hl] at hr ⊢
  simp only at hr ⊢
  have hok1 : okSt { s with fl := { s.fl with l := true } } = true := by
    rw [okSt_fl]; exact hok
  by_cases hok2 : okSt (run g f { s with fl := { s.fl with l := true } } (.runLstTasks s.qs.l)) = true
  · rw [runLstTasksNoEff g hne _ _ _ hok1 hok2] at hr ⊢
    rw [if_pos (by rw [okSt_trace]; exact hok1)]
    cases s with
    | mk qs fl out =>
        cases fl with
        | mk a b c => simp_all
  · rw [if_neg hok2] at hr
    exact absurd hr hok2

/-! ## Phase decomposition of a full emission -/

theorem emitRun_unfold (g : Graph) (f : Nat) (root : Nat) (v : Val) :
    emitRun g (f + 2) root v =
      run g f (run g f (pureRun g f root v) .flushMut) .flushLst := by
  have h1 : emitRun g (f + 2) root v = run g (f + 1) (emitInit root v) .flushQueues := by
    rw [show f + 2 = f + 1 + 1 from rfl, emitRun, runc_emitOne g (f + 1) st0 root v rfl]
    rfl
  exact h1.trans (runc_flushQueues g f (emitInit root v) rfl)

/-- Phase decomposition: for a graph of pure transforms (no reentrant
emitter calls) and plain effects (no emitter calls in effects), a
successful `emit(v)` consists of the pure phase, which runs no queued
effect and drains the pure queue, followed by exactly the queued mutation
effects in enqueue order, followed by exactly the queued listener effects
in enqueue order; all three queues are empty at the end. -/
theorem emit_decomposition (g : Graph) (hnr : noReentrant g) (hne : noEffEmits g)
    (root : Nat) (v : Val) (f : Nat)
    (hr : okSt (emitRun g (f + 2) root v) = true) :
    (∀ e ∈ (pureRun g f root v).out.trace, isEffEv e = false) ∧
    (pureRun g f root v).qs.p = [] ∧
    (emitRun g (f + 2) root v).out.trace =
      (pureRun g f root v).out.trace ++ (pureRun g f root v).qs.m.map effEv ++
        (pureRun g f root v).qs.l.map effEv ∧
    (emitRun g (f + 2) root v).qs.p = [] ∧
    (emitRun g (f + 2) root v).qs.m = [] ∧
    (emitRun g (f + 2) root v).qs.l = [] := by
  rw [emitRun_unfold g f root v] at hr ⊢
  have hokM : okSt (run g f (pureRun g f root v) .flushMut) = true := ok_of_run _ _ _ _ hr
  have hokP : okSt (pureRun g f root v) = true := ok_of_run _ _ _ _ hokM
  have hspec := pureRunSpec g hnr f (emitInit root v) .flushPure rfl hokP
  simp only [pureSpec] at hspec
  obtain ⟨⟨hfl, tn, mn, ln, ht, hnn, hmq, hlq⟩, hpq⟩ := hspec
  have hP0 : (pureRun g f root v).qs.p = [] := hpq rfl
  have hflP : (pureRun g f root v).fl = ⟨false, false, false⟩ := hfl
  have htr : (pureRun g f root v).out.trace = tn := by simpa [emitInit, st0] using ht
  have hT : ∀ e ∈ (pureRun g f root v).out.trace, isEffEv e = false := by
    rw [htr]; exact hnn
  obtain ⟨f1, rfl⟩ := run_pos _ _ _ _ hokM
  have hM := flushMutNoEff g hne f1 (pureRun g (f1 + 1) root v) hokP
    (by rw [hflP]) hokM
  rw [hM] at hr ⊢
  have hokM2 : okSt { pureRun g (f1 + 1) root v with
      qs := { (pureRun g (f1 + 1) root v).qs with m := [] },
      out := { (pureRun g (f1 + 1) root v).out with
        trace := (pureRun g (f1 + 1) root v).out.trace ++
          (pureRun g (f1 + 1) root v).qs.m.map effEv } } = true := hokP
  have hL := flushLstNoEff g hne f1 _ hokM2 (by simp [hflP]) hr
  rw [hL]
  refine ⟨hT, hP0, ?_, ?_, ?_, ?_⟩ <;> simp [hP0, List.append_assoc]

/-! ## Scope teardown (claim C6)

`onCleanup(() => sub.unsubscribe())` (line 259) unsubscribes every
subscription registered in the scope when it disposes. `deactivate`
models the disposal of a scope enclosing the whole graph: every
subscription becomes inactive, and the multicast stream drops pushes to
unsubscribed subscribers. -/

theorem subsIdx_deactivate (g : Graph) (st : Nat) : subsIdx (deactivate g) st = [] := by
  unfold subsIdx deactivate
  simp only [List.length_map]
  refine List.filter_eq_nil_iff.mpr ?_
  intro i _
  rw [List.getElem?_map]
  cases g.edges[i]? <;> simp

theorem pureLoop_deactivated (g : Graph) (f : Nat) (root : Nat) (v : Val) :
    run (deactivate g) (f + 3)
      (⟨⟨[(root, v)], [], []⟩, ⟨true, false, false⟩, ⟨[], none⟩⟩ : St) .pureLoop =
      (⟨⟨[], [], []⟩, ⟨true, false, false⟩, ⟨[], none⟩⟩ : St) := by
  have e5 : run (deactivate g) (f + 2)
      (⟨⟨[], [], []⟩, ⟨true, false, false⟩, ⟨[], none⟩⟩ : St) (.deliver root v) =
      (⟨⟨[], [], []⟩, ⟨true, false, false⟩, ⟨[], none⟩⟩ : St) := by
    rw [show f + 2 = f + 1 + 1 from rfl,
      runc_deliver (deactivate g) (f + 1)
        (⟨⟨[], [], []⟩, ⟨true, false, false⟩, ⟨[], none⟩⟩ : St) root v rfl,
      subsIdx_deactivate]
    exact runc_runEdges_nil _ f _ v rfl
  have step1 : run (deactivate g) (f + 3)
      (⟨⟨[(root, v)], [], []⟩, ⟨true, false, false⟩, ⟨[], none⟩⟩ : St) .pureLoop =
      run (deactivate g) (f + 2)
        (run (deactivate g) (f + 2)
          (⟨⟨[], [], []⟩, ⟨true, false, false⟩, ⟨[], none⟩⟩ : St) (.deliver root v)) .pureLoop :=
    runc_pureLoop_cons (deactivate g) (f + 2) _ (root, v) [] rfl rfl
  rw [step1, e5]
  exact runc_pureLoop_nil _ (f + 1) _ rfl rfl

/-- After the enclosing scope disposes, an emit on a retained emitter has
no observable effect: the scheduler returns to the idle state, with an
empty trace. -/
theorem emitRun_deactivated (g : Graph) (root : Nat) (v : Val) (f : Nat) :
    emitRun (deactivate g) (f + 6) root v = st0 := by
  have e1 : emitRun (deactivate g) (f + 6) root v =
      run (deactivate g) (f + 5) (emitInit root v) .flushQueues := by
    rw [show f + 6 = f + 5 + 1 from rfl, emitRun,
      runc_emitOne (deactivate g) (f + 5) st0 root v rfl]
    rfl
  have e2 : run (deactivate g) (f + 5) (emitInit root v) .flushQueues =
      run (deactivate g) (f + 4)
        (run (deactivate g) (f + 4)
          (run (deactivate g) (f + 4) (emitInit root v) .flushPure) .flushMut) .flushLst :=
    runc_flushQueues (deactivate g) (f + 4) (emitInit root v) rfl
  have e3 : run (deactivate g) (f + 4) (emitInit root v) .flushPure = st0 := by
    rw [show f + 4 = f + 3 + 1 from rfl,
      runc_flushPure (deactivate g) (f + 3) (emitInit root v) rfl rfl]
    have e4 := pureLoop_deactivated g f root v
    have e4' : run (deactivate g) (f + 3)
        { emitInit root v with fl := { (emitInit root v).fl with p := true } } .pureLoop =
        (⟨⟨[], [], []⟩, ⟨true, false, false⟩, ⟨[], none⟩⟩ : St) := e4
    simp only [e4']
    rfl
  have e6 : run (deactivate g) (f + 4) st0 .flushMut = st0 := by
    rw [show f + 4 = f + 3 + 1 from rfl, runc_flushMut (deactivate g) (f + 3) st0 rfl rfl]
    have e6' : run (deactivate g) (f + 3)
        { st0 with fl := { st0.fl with m := true } } (.runMutTasks st0.qs.m) =
        { st0 with fl := { st0.fl with m := true } } :=
      runc_runMutTasks_nil _ (f + 2) _ rfl
    simp only [e6']
    rfl
  have e7 : run (deactivate g) (f + 4) st0 .flushLst = st0 := by
    rw [show f + 4 = f + 3 + 1 from rfl, runc_flushLst (deactivate g) (f + 3) st0 rfl rfl]
    have e7' : run (deactivate g) (f + 3)
        { st0 with fl := { st0.fl with l := true } } (.runLstTasks st0.qs.l) =
        { st0 with fl := { st0.fl with l := true } } :=
      runc_runLstTasks_nil _ (f + 2) _ rfl
    simp only [e7']
    rfl
  rw [e1, e2, e3, e6, e7]

/-! ## Halt and error behaviour of a single edge (claim C2) -/

/-- A transform returning normally: the callback records the invocation
and enqueues the delivery of the result onto the pure queue. -/
theorem runEdge_ok (g : Graph) (f : Nat) (s : St) (i : Nat) (v : Val) (e : Edge)
    (em : Val → List (Nat × Val)) (F : Val → TResult) (o : Val)
    (hok : okSt s = true) (he : g.edges[i]? = some e) (hk : e.kind = .tfm em F)
    (hem : em v = []) (hF : F v = .ok o) :
    run g (f + 2) s (.runEdge i v) =
      { s with qs := { s.qs with p := s.qs.p ++ [(e.target, o)] },
               out := { s.out with trace := s.out.trace ++ [.call i v] } } := by
  simp only [run, hok, he, hk, hem, hF, if_true]
  simp [okSt] at hok
  simp [okSt, hok]

/-- A transform throwing a `HaltError`: `handleError` swallows it and
info-logs; nothing is enqueued, so the emission is suppressed along this
edge with zero downstream invocations. -/
theorem runEdge_halt (g : Graph) (f : Nat) (s : St) (i : Nat) (v : Val) (e : Edge)
    (em : Val → List (Nat × Val)) (F : Val → TResult) (r : Option String)
    (hok : okSt s = true) (he : g.edges[i]? = some e) (hk : e.kind = .tfm em F)
    (hem : em v = []) (hF : F v = .halted r) :
    run g (f + 2) s (.runEdge i v) =
      { s with out := { s.out with
          trace := s.out.trace ++ [.call i v] ++ [.info (haltMsg r)] } } := by
  simp only [run, hok, he, hk, hem, hF, if_true]
  simp [okSt] at hok
  simp [okSt, hok]

/-- A transform throwing any other error: `handleError` re-throws, the
fault propagates. -/
theorem runEdge_thrown (g : Graph) (f : Nat) (s : St) (i : Nat) (v : Val) (e : Edge)
    (em : Val → List (Nat × Val)) (F : Val → TResult) (m : String)
    (hok : okSt s = true) (he : g.edges[i]? = some e) (hk : e.kind = .tfm em F)
    (hem : em v = []) (hF : F v = .thrown m) :
    run g (f + 2) s (.runEdge i v) =
      { s with out :=
          { s.out with
            trace := s.out.trace ++ [.call i v]
            fault := some (.thrownErr m) } } := by
  simp only [run, hok, he, hk, hem, hF, if_true]
  simp [okSt] at hok
  simp [okSt, hok]

/-- Sibling independence: a halting edge contributes only its `call` and
`info` trace events; the remaining subscribers of the same stream then
run from an otherwise identical state. -/
theorem runEdges_halt_skip (g : Graph) (f : Nat) (s : St) (i : Nat)
    (rest : List Nat) (v : Val) (e : Edge) (em : Val → List (Nat × Val))
    (F : Val → TResult) (r : Option String)
    (hok : okSt s = true) (he : g.edges[i]? = some e) (hk : e.kind = .tfm em F)
    (hem : em v = []) (hF : F v = .halted r) :
    run g (f + 3) s (.runEdges (i :: rest) v) =
      run g (f + 2)
        { s with out := { s.out with
            trace := s.out.trace ++ [.call i v] ++ [.info (haltMsg r)] } }
        (.runEdges rest v) := by
  rw [show f + 3 = f + 2 + 1 from rfl, runc_runEdges_cons g (f + 2) s i rest v hok,
    runEdge_halt g f s i v e em F r hok he hk hem hF]

/-- A propagating thrown error makes every enclosing scheduler step a
no-op: it reaches the emit call site unchanged. -/
theorem fault_stuck (g : Graph) (f : Nat) (s : St) (j : Job) (m : String)
    (h : s.out.fault = some (.thrownErr m)) : run g f s j = s :=
  run_stuck g f s j (by simp [okSt, h])

/-! ## Ensured topic nodes (claim C8) -/

theorem lookupChild_setChild (l : List (String × TTree)) (k : String) (c : TTree) :
    lookupChild (setChild l k c) k = some c := by
  induction l with
  | nil => simp [setChild, lookupChild]
  | cons h rest ih =>
      obtain ⟨k2, c2⟩ := h
      by_cases hk : k2 = k
      · simp [setChild, lookupChild, hk]
      · simp [setChild, lookupChild, hk, ih]

/-- `on` creates every node along its key path: after `ensureEvent`,
navigating the full path succeeds. -/
theorem navNode_ensureEvent (path : List String) :
    ∀ (t : TTree) (fresh : Nat),
      (navNode (ensureEvent t path fresh).1 path).isSome = true := by
  induction path with
  | nil =>
      intro t fresh
      cases t with
      | mk ev kids => cases ev <;> simp [ensureEvent, navNode]
  | cons k ks ih =>
      intro t fresh
      cases t with
      | mk ev kids =>
          simp only [ensureEvent, navNode]
          rw [show (TTree.mk ev (setChild kids k (ensureEvent
              (match lookupChild kids k with
               | some c => c
               | none => .mk none []) ks fresh).1)).kidsOf
            = setChild kids k (ensureEvent
              (match lookupChild kids k with
               | some c => c
               | none => .mk none []) ks fresh).1 from rfl]
          rw [lookupChild_setChild]
          exact ih _ fresh

/-! # The claims -/

/-- C1: For every emission on a handler graph with no async transforms
and no halts in play — modelled as: every transform is a pure function
(no reentrant emitter calls) and every queued effect is plain (no
emitter calls) — all pure transforms propagate to fixpoint before any
mutation effect runs (the pure phase appends no `eff` event and drains
the pure queue), all mutation effects run before any listener effect,
and within each queue, effects run in enqueue (registration) order: the
full trace is the pure-phase trace followed by exactly the queued
mutation effects in queue order followed by exactly the queued listener
effects in queue order. In the chain `on -> onDouble -> onDoubleDouble`
with listeners at each stage, emitting 1 yields the listener sequence
`[1, 1, 2, 4]`. -/
theorem c1_scheduler_ordering :
    (∀ (g : Graph) (root : Nat) (v : Val) (f : Nat),
        noReentrant g → noEffEmits g →
        okSt (emitRun g (f + 2) root v) = true →
        (∀ e ∈ (pureRun g f root v).out.trace, isEffEv e = false) ∧
        (pureRun g f root v).qs.p = [] ∧
        (emitRun g (f + 2) root v).out.trace =
          (pureRun g f root v).out.trace ++ (pureRun g f root v).qs.m.map effEv ++
            (pureRun g f root v).qs.l.map effEv ∧
        (emitRun g (f + 2) root v).qs.p = [] ∧
        (emitRun g (f + 2) root v).qs.m = [] ∧
        (emitRun g (f + 2) root v).qs.l = []) ∧
    effValues (emitRun chainGraph 40 0 (.num 1)).out.trace =
      [.num 1, .num 1, .num 2, .num 4] :=
  ⟨fun g root v f hnr hne hr => emit_decomposition g hnr hne root v f hr, rfl⟩

theorem c1_scheduler_ordering_witness :
    (∀ e ∈ (pureRun chainGraph 38 0 (.num 1)).out.trace, isEffEv e = false) ∧
    (pureRun chainGraph 38 0 (.num 1)).qs.p = [] ∧
    (emitRun chainGraph (38 + 2) 0 (.num 1)).out.trace =
      (pureRun chainGraph 38 0 (.num 1)).out.trace ++
        (pureRun chainGraph 38 0 (.num 1)).qs.m.map effEv ++
        (pureRun chainGraph 38 0 (.num 1)).qs.l.map effEv ∧
    (emitRun chainGraph (38 + 2) 0 (.num 1)).qs.p = [] ∧
    (emitRun chainGraph (38 + 2) 0 (.num 1)).qs.m = [] ∧
    (emitRun chainGraph (38 + 2) 0 (.num 1)).qs.l = [] :=
  c1_scheduler_ordering.1 chainGraph 0 (.num 1) 38
    (by
      intro e he v
      simp [chainGraph] at he
      rcases he with rfl | rfl | rfl | rfl | rfl | rfl <;> rfl)
    (fun _ _ => rfl)
    (by rfl)

/-- C2: for every emission, a transform that throws a HaltMarker
suppresses the emission along its edge with an info log — the callback
records only its `call` event and the log, and enqueues nothing, so that
emission causes zero downstream invocations along that edge — while the
remaining sibling subscribers of the same handler run from an otherwise
identical state; any other thrown error is re-thrown and every enclosing
scheduler step passes it through unchanged, so it propagates out of the
emit call site. Concretely (spec test 3): with
`onValid = on(p => p.length < 3 ? halt('Huh') : p)` and a subscriber on
`onValid`, `emit('hello'); emit('hi')` invokes the subscriber only for
"hello" and logs the halt for "hi", with no error escaping. -/
theorem c2_halt_semantics :
    (∀ (g : Graph) (f : Nat) (s : St) (i : Nat) (v : Val) (e : Edge)
        (em : Val → List (Nat × Val)) (F : Val → TResult) (r : Option String),
        okSt s = true → g.edges[i]? = some e → e.kind = .tfm em F → em v = [] →
        F v = .halted r →
        run g (f + 2) s (.runEdge i v) =
          { s with out := { s.out with
              trace := s.out.trace ++ [.call i v] ++ [.info (haltMsg r)] } }) ∧
    (∀ (g : Graph) (f : Nat) (s : St) (i : Nat) (rest : List Nat) (v : Val) (e : Edge)
        (em : Val → List (Nat × Val)) (F : Val → TResult) (r : Option String),
        okSt s = true → g.edges[i]? = some e → e.kind = .tfm em F → em v = [] →
        F v = .halted r →
        run g (f + 3) s (.runEdges (i :: rest) v) =
          run g (f + 2)
            { s with out := { s.out with
                trace := s.out.trace ++ [.call i v] ++ [.info (haltMsg r)] } }
            (.runEdges rest v)) ∧
    (∀ (g : Graph) (f : Nat) (s : St) (i : Nat) (v : Val) (e : Edge)
        (em : Val → List (Nat × Val)) (F : Val → TResult) (m : String),
        okSt s = true → g.edges[i]? = some e → e.kind = .tfm em F → em v = [] →
        F v = .thrown m →
        run g (f + 2) s (.runEdge i v) =
          { s with out :=
              { s.out with
                trace := s.out.trace ++ [.call i v]
                fault := some (.thrownErr m) } }) ∧
    (∀ (g : Graph) (f : Nat) (s : St) (j : Job) (m : String),
        s.out.fault = some (.thrownErr m) → run g f s j = s) ∧
    haltsRun.out.trace =
      [.call 0 (.str "hello"), .call 1 (.str "hello"), .call 0 (.str "hi"),
       .info "Event propogation halted: Huh"] ∧
    haltsRun.out.fault = none :=
  ⟨runEdge_halt, runEdges_halt_skip, runEdge_thrown, fault_stuck, rfl, rfl⟩

theorem c2_halt_semantics_witness :
    run haltsGraph 2 st0 (.runEdge 0 (.str "hi")) =
      { st0 with out := { st0.out with
          trace := st0.out.trace ++ [.call 0 (.str "hi")] ++
            [.info (haltMsg (some "Huh"))] } } ∧
    run chainGraph 2 st0 (.runEdge 1 (.str "x")) =
      { st0 with out :=
          { st0.out with
            trace := st0.out.trace ++ [.call 1 (.str "x")]
            fault := some (.thrownErr "TypeError") } } :=
  ⟨c2_halt_semantics.1 haltsGraph 0 st0 0 (.str "hi") _ _ _ (some "Huh")
      rfl rfl rfl rfl rfl,
   c2_halt_semantics.2.2.1 chainGraph 0 st0 1 (.str "x") _ _ _ "TypeError"
      rfl rfl rfl rfl rfl⟩

/-- C3: the promise chain of `makeHandler` (lines 244-252). A transform
result that is a promise is flattened: the value is delivered downstream
exactly when that promise resolves (the chained promise settles with the
inner settlement, at the later of the two resolution times), and a
transform invocation happens exactly at the upstream resolution time —
never before. A promise resolving to a HaltMarker is forwarded
downstream without invoking the downstream transform; a rejection with a
HaltMarker is converted by `catch(handleError)` into a resolved
HaltMarker; any other rejection re-throws at the tail of the chain. -/
theorem c3_promise_flattening :
    (∀ (tr : Val → TransOut) (p q : TProm) (v o : Val),
        p.res = .val v → tr v = .later q → q.res = .val o →
        promiseStep tr p = (⟨max p.time q.time, .val o⟩, some (p.time, v))) ∧
    (∀ (tr : Val → TransOut) (t : Nat) (o w : Val), tr o = .now (.ok w) →
        promiseStep tr ⟨t, .val o⟩ = (⟨t, .val w⟩, some (t, o))) ∧
    (∀ (tr : Val → TransOut) (t : Nat) (r : Option String),
        promiseStep tr ⟨t, .haltVal r⟩ = (⟨t, .haltVal r⟩, none)) ∧
    (∀ (tr : Val → TransOut) (t : Nat) (r : Option String),
        promiseStep tr ⟨t, .rejHalt r⟩ = (⟨t, .haltVal r⟩, none)) ∧
    (∀ (tr : Val → TransOut) (t : Nat) (m : String),
        promiseStep tr ⟨t, .rejErr m⟩ = (⟨t, .rejErr m⟩, none)) := by
  refine ⟨?_, ?_, fun tr t r => rfl, fun tr t r => rfl, fun tr t m => rfl⟩
  · intro tr p q v o h1 h2 h3
    simp [promiseStep, thenPart, catchPart, h1, h2, h3]
  · intro tr t o w h
    simp [promiseStep, thenPart, catchPart, h]

theorem c3_promise_flattening_witness :
    promiseStep (fun _ => .later ⟨5, .val (.num 9)⟩) ⟨2, .val (.num 3)⟩ =
      (⟨max 2 5, .val (.num 9)⟩, some (2, .num 3)) ∧
    promiseStep (fun x => .now (.ok x)) ⟨7, .val (.num 4)⟩ =
      (⟨7, .val (.num 4)⟩, some (7, .num 4)) :=
  ⟨c3_promise_flattening.1 (fun _ => .later ⟨5, .val (.num 9)⟩) ⟨2, .val (.num 3)⟩
      ⟨5, .val (.num 9)⟩ (.num 3) (.num 9) rfl rfl rfl,
   c3_promise_flattening.2.1 (fun x => .now (.ok x)) 7 (.num 4) (.num 4) rfl⟩

/-- C4: with a topic over `{a: number, b: {c: number}}` and subscribers
`on('a', push)`, `on('b', p => push(p.c))`, `on('b','c', push)`, the
emission sequence `emit('a',1); emit('b',{c:2}); emit('b','c',3);
emit({a:4, b:{c:5}})` produces exactly the pushed sequence
`[1, 2, 2, 3, 3, 4, 5, 5]` via the prefix fan-out that wraps the payload
in the suffix keys at each prefix node that has an event, and no error
is thrown. -/
theorem c4_topic_fanout :
    topicMessages c4Run.out.trace =
      [.num 1, .num 2, .num 2, .num 3, .num 3, .num 4, .num 5, .num 5] ∧
    c4Run.out.fault = none :=
  ⟨rfl, rfl⟩

/-- C5: for every emission into `createPartition(h, pred)`, exactly one
of the two partition edges fires (enqueues a downstream delivery), or
neither fires if the predicate throws: when the predicate is true the
truthy edge delivers the value and the falsy edge only halt-logs; when
false, symmetrically; when the predicate throws a HaltMarker both edges
halt-log and neither delivers; when it throws any other error the edge
faults, nothing is delivered, and every further scheduler step passes
the error through. Concretely (the `createPartition` test), partitioning
`p.length >= 3` over `emit('hello'); emit('hi')` routes "hello" to the
truthy observer and "hi" to the falsy observer, exactly once each. -/
theorem c5_partition_exclusive :
    (∀ (g : Graph) (f : Nat) (s : St) (i : Nat) (v : Val) (e : Edge)
        (pred : Val → PredRes),
        okSt s = true → g.edges[i]? = some e →
        e.kind = tf (createPartition pred).1 → pred v = .tru →
        run g (f + 2) s (.runEdge i v) =
          { s with qs := { s.qs with p := s.qs.p ++ [(e.target, v)] },
                   out := { s.out with trace := s.out.trace ++ [.call i v] } }) ∧
    (∀ (g : Graph) (f : Nat) (s : St) (i : Nat) (v : Val) (e : Edge)
        (pred : Val → PredRes),
        okSt s = true → g.edges[i]? = some e →
        e.kind = tf (createPartition pred).2 → pred v = .tru →
        run g (f + 2) s (.runEdge i v) =
          { s with out := { s.out with
              trace := s.out.trace ++ [.call i v] ++ [.info (haltMsg none)] } }) ∧
    (∀ (g : Graph) (f : Nat) (s : St) (i : Nat) (v : Val) (e : Edge)
        (pred : Val → PredRes),
        okSt s = true → g.edges[i]? = some e →
        e.kind = tf (createPartition pred).1 → pred v = .fls →
        run g (f + 2) s (.runEdge i v) =
          { s with out := { s.out with
              trace := s.out.trace ++ [.call i v] ++ [.info (haltMsg none)] } }) ∧
    (∀ (g : Graph) (f : Nat) (s : St) (i : Nat) (v : Val) (e : Edge)
        (pred : Val → PredRes),
        okSt s = true → g.edges[i]? = some e →
        e.kind = tf (createPartition pred).2 → pred v = .fls →
        run g (f + 2) s (.runEdge i v) =
          { s with qs := { s.qs with p := s.qs.p ++ [(e.target, v)] },
                   out := { s.out with trace := s.out.trace ++ [.call i v] } }) ∧
    (∀ (g : Graph) (f : Nat) (s : St) (i : Nat) (v : Val) (e : Edge)
        (pred : Val → PredRes) (r : Option String),
        okSt s = true → g.edges[i]? = some e →
        e.kind = tf (createPartition pred).1 → pred v = .hlt r →
        run g (f + 2) s (.runEdge i v) =
          { s with out := { s.out with
              trace := s.out.trace ++ [.call i v] ++ [.info (haltMsg r)] } }) ∧
    (∀ (g : Graph) (f : Nat) (s : St) (i : Nat) (v : Val) (e : Edge)
        (pred : Val → PredRes) (r : Option String),
        okSt s = true → g.edges[i]? = some e →
        e.kind = tf (createPartition pred).2 → pred v = .hlt r →
        run g (f + 2) s (.runEdge i v) =
          { s with out := { s.out with
              trace := s.out.trace ++ [.call i v] ++ [.info (haltMsg r)] } }) ∧
    (∀ (g : Graph) (f : Nat) (s : St) (i : Nat) (v : Val) (e : Edge)
        (pred : Val → PredRes) (m : String),
        okSt s = true → g.edges[i]? = some e →
        e.kind = tf (createPartition pred).1 → pred v = .err m →
        run g (f + 2) s (.runEdge i v) =
          { s with out :=
              { s.out with
                trace := s.out.trace ++ [.call i v]
                fault := some (.thrownErr m) } }) ∧
    (∀ (g : Graph) (f : Nat) (s : St) (j : Job) (m : String),
        s.out.fault = some (.thrownErr m) → run g f s j = s) ∧
    partitionRun.out.trace =
      [.call 0 (.str "hello"), .call 1 (.str "hello"),
       .info "Event propogation halted", .call 2 (.str "hello"),
       .call 0 (.str "hi"), .info "Event propogation halted",
       .call 1 (.str "hi"), .call 3 (.str "hi")] ∧
    partitionRun.out.fault = none := by
  refine ⟨?_, ?_, ?_, ?_, ?_, ?_, ?_, fault_stuck, rfl, rfl⟩
  · intro g f s i v e pred hok he hk hq
    exact runEdge_ok g f s i v e _ _ v hok he hk rfl (by simp [createPartition, partTrue, hq])
  · intro g f s i v e pred hok he hk hq
    exact runEdge_halt g f s i v e _ _ none hok he hk rfl (by simp [createPartition, partFalse, hq])
  · intro g f s i v e pred hok he hk hq
    exact runEdge_halt g f s i v e _ _ none hok he hk rfl (by simp [createPartition, partTrue, hq])
  · intro g f s i v e pred hok he hk hq
    exact runEdge_ok g f s i v e _ _ v hok he hk rfl (by simp [createPartition, partFalse, hq])
  · intro g f s i v e pred r hok he hk hq
    exact runEdge_halt g f s i v e _ _ r hok he hk rfl (by simp [createPartition, partTrue, hq])
  · intro g f s i v e pred r hok he hk hq
    exact runEdge_halt g f s i v e _ _ r hok he hk rfl (by simp [createPartition, partFalse, hq])
  · intro g f s i v e pred m hok he hk hq
    exact runEdge_thrown g f s i v e _ _ m hok he hk rfl (by simp [createPartition, partTrue, hq])

theorem c5_partition_exclusive_witness :
    run partitionGraph 2 st0 (.runEdge 0 (.str "hello")) =
      { st0 with qs := { st0.qs with p := st0.qs.p ++ [(1, .str "hello")] },
                 out := { st0.out with
                   trace := st0.out.trace ++ [.call 0 (.str "hello")] } } ∧
    run partitionGraph 2 st0 (.runEdge 1 (.str "hello")) =
      { st0 with out := { st0.out with
          trace := st0.out.trace ++ [.call 1 (.str "hello")] ++
            [.info (haltMsg none)] } } :=
  ⟨c5_partition_exclusive.1 partitionGraph 0 st0 0 (.str "hello") _ lenPred
      rfl rfl rfl rfl,
   c5_partition_exclusive.2.1 partitionGraph 0 st0 1 (.str "hello") _ lenPred
      rfl rfl rfl rfl⟩

/-- C6: after the enclosing scope disposes — `onCleanup` has
unsubscribed every subscription created by `handler(transform)` inside
the scope, modelled by every edge becoming inactive — every subsequent
emit on an emitter retained outside the scope produces zero observable
side effects: the scheduler returns to the idle state `st0`, with an
empty trace, empty queues and no error. -/
theorem c6_teardown (g : Graph) (root : Nat) (v : Val) (f : Nat) :
    emitRun (deactivate g) (f + 6) root v = st0 :=
  emitRun_deactivated g root v f

/-- C7: a reentrant emit issued from inside a running pure drain is
safe. In the scenario — root stream 0 with listener 1, a transform that
reentrantly emits `10` into a second event (stream 4, carrying listener
3 and mutation listener 4), and listener 2 — the trace shows: the
reentrant emit's pure task is drained within the same flush (its
subscribers' `call` events appear before the queue phases); the
mutation and listener effects it triggers (4 and 3) are deferred to
their queue phases, after the pure fixpoint, mutation before listener;
listener effects run in FIFO enqueue order 1, 2, 3 interleaving the
inner and outer emissions; and no effect is lost — every enqueued
effect runs exactly once and all queues end empty. (The reentrant
`flushQueues` drains the listener queue early, which is why the outer
listener effect 1 runs during pure propagation.) In general, every pure
task enqueued during a running pure drain — reentrant emits included —
is drained within that same flush: a completed `pureLoop` always leaves
the pure queue empty. -/
theorem c7_reentrant_emit :
    (∀ (g : Graph) (f : Nat) (s : St), okSt s = true →
        okSt (run g f s .pureLoop) = true → (run g f s .pureLoop).qs.p = []) ∧
    (emitRun reentrantGraph 40 0 (.str "a")).out.trace =
      [.call 0 (.str "a"), .call 1 (.str "a"), .eff 1 (.str "a"), .call 2 (.str "a"),
       .call 3 (.num 10), .call 4 (.num 10), .eff 4 (.num 10), .eff 2 (.str "a"),
       .eff 3 (.num 10)] ∧
    (emitRun reentrantGraph 40 0 (.str "a")).qs = ⟨[], [], []⟩ ∧
    (emitRun reentrantGraph 40 0 (.str "a")).out.fault = none := by
  refine ⟨?_, rfl, rfl, rfl⟩
  intro g f s hok hr
  have := (runSpec g f s .pureLoop hok hr).2
  simpa [qSpec] using this

theorem c7_reentrant_emit_witness :
    (run reentrantGraph 31
      (⟨⟨[(0, .str "a")], [], []⟩, ⟨true, false, false⟩, ⟨[], none⟩⟩ : St)
      .pureLoop).qs.p = [] :=
  c7_reentrant_emit.1 reentrantGraph 31
    (⟨⟨[(0, .str "a")], [], []⟩, ⟨true, false, false⟩, ⟨[], none⟩⟩ : St) rfl (by rfl)

/-- C8 (counterexample): emitting at a key path that has never been
subscribed does NOT complete without error: on a fresh topic,
`emit('a', 1)` dereferences the absent node `topicTree['a']` in the
fan-out loop and throws a TypeError, with no delivery. -/
theorem c8_counterexample_unsubscribed_emit :
    (topicEmit { edges := [], effEmits := fun _ _ => [] } builder0.tree 20 st0
        ["a"] (.num 1)).out =
      ⟨[], some (.thrownErr "TypeError")⟩ := rfl

/-- C8 (amended): topic tree nodes are created on demand by the first
subscribe at a key path — after `on` (`ensureEvent`), navigating the
full path succeeds — but `emit` never creates nodes: emitting at a key
path that has never been subscribed dereferences an absent node and
throws a TypeError, producing no trace events. -/
theorem c8_nodes_on_subscribe :
    (∀ (path : List String) (t : TTree) (fresh : Nat),
        (navNode (ensureEvent t path fresh).1 path).isSome = true) ∧
    (∀ (b : Builder) (path : List String) (fc : Val → TResult),
        (navNode (topicOn b path fc).tree path).isSome = true) ∧
    (∀ (g : Graph) (k : String) (n : Int),
        (topicEmit g (.mk none []) 5 st0 [k] (.num n)).out =
          ⟨[], some (.thrownErr "TypeError")⟩) :=
  ⟨fun path t fresh => navNode_ensureEvent path t fresh,
   fun b path _fc => navNode_ensureEvent path b.tree b.nextStream,
   fun _ _ _ => rfl⟩

/-- C9: at most one drain of each queue is in progress at any time (a
nested flush of a queue whose running flag is set is a no-op), queues
drain in the fixed order pure, then mutation, then listener
(`flushQueues` is exactly that composition), and on completion of a
full flush from an idle scheduler every queue is empty — in particular
`flushListeners` clears the listener queue after draining. -/
theorem c9_queue_invariants (g : Graph) (f : Nat) (s : St)
    (hok : okSt s = true)
    (hp : s.fl.p = false) (hm : s.fl.m = false) (hl : s.fl.l = false)
    (hq : okSt (run g (f + 1) s .flushQueues) = true)
    (hfl : okSt (run g (f + 1) s .flushLst) = true) :
    run g (f + 1) { s with fl := { s.fl with p := true } } .flushPure =
      { s with fl := { s.fl with p := true } } ∧
    run g (f + 1) { s with fl := { s.fl with m := true } } .flushMut =
      { s with fl := { s.fl with m := true } } ∧
    run g (f + 1) { s with fl := { s.fl with l := true } } .flushLst =
      { s with fl := { s.fl with l := true } } ∧
    run g (f + 1) s .flushQueues =
      run g f (run g f (run g f s .flushPure) .flushMut) .flushLst ∧
    (run g (f + 1) s .flushQueues).qs.p = [] ∧
    (run g (f + 1) s .flushQueues).qs.m = [] ∧
    (run g (f + 1) s .flushQueues).qs.l = [] ∧
    (run g (f + 1) s .flushLst).qs.l = [] := by
  obtain ⟨_, hspec⟩ := runSpec g (f + 1) s .flushQueues hok hq
  obtain ⟨_, hspecL⟩ := runSpec g (f + 1) s .flushLst hok hfl
  simp only [qSpec] at hspec hspecL
  refine ⟨runc_flushPure_guard g f _ hok rfl, runc_flushMut_guard g f _ hok rfl,
    runc_flushLst_guard g f _ hok rfl, runc_flushQueues g f s hok,
    hspec.1 hp, hspec.2.1 hp hm, hspec.2.2 hl, hspecL.1 hl⟩

theorem c9_queue_invariants_witness :
    run chainGraph 31 { st0 with fl := { st0.fl with p := true } } .flushPure =
      { st0 with fl := { st0.fl with p := true } } ∧
    run chainGraph 31 { st0 with fl := { st0.fl with m := true } } .flushMut =
      { st0 with fl := { st0.fl with m := true } } ∧
    run chainGraph 31 { st0 with fl := { st0.fl with l := true } } .flushLst =
      { st0 with fl := { st0.fl with l := true } } ∧
    run chainGraph 31 st0 .flushQueues =
      run chainGraph 30 (run chainGraph 30 (run chainGraph 30 st0 .flushPure)
        .flushMut) .flushLst ∧
    (run chainGraph 31 st0 .flushQueues).qs.p = [] ∧
    (run chainGraph 31 st0 .flushQueues).qs.m = [] ∧
    (run chainGraph 31 st0 .flushQueues).qs.l = [] ∧
    (run chainGraph 31 st0 .flushLst).qs.l = [] :=
  c9_queue_invariants chainGraph 30 st0 rfl rfl rfl rfl (by rfl) (by rfl)

/-- C10: the topic emitter's recursion branch triggers for every payload
with `typeof` "object", not only plain objects: an array payload is
recursed per own index — the node at the key path receives the wrapped
per-index object, never the array itself (and the recursion then throws
a TypeError at the absent index child) — and a `null` payload throws a
TypeError from `Object.keys(null)` before any delivery occurs. -/
theorem c10_object_branch :
    typeofObject (.arr [.num 7]) = true ∧
    typeofObject .null = true ∧
    (topicEmit topicG1 topicB1.tree 20 st0 ["a"] (.arr [.num 7])).out =
      ⟨[.call 0 (.obj [("0", .num 7)])], some (.thrownErr "TypeError")⟩ ∧
    (topicEmit topicG1 topicB1.tree 20 st0 ["a"] .null).out =
      ⟨[], some (.thrownErr "TypeError")⟩ :=
  ⟨rfl, rfl, rfl, rfl⟩

end SolidEvents
